import Mathlib

/-!
flappy_bird: the simulation core of `src/flappy_bird.cpp`.

A shallow embedding of the bird physics, the pillar stream, the collision
test and the game-status switch of `main`, followed by theorems about them.

Modelling conventions.

* `config.hpp` is not part of the sources at hand, so its three integer
  constants `GAME_WIDTH`, `GAME_HEIGHT`, `GAME_FPS` are the fields of a
  `Config` that every definition takes as a parameter.
* C++ `int` division and remainder truncate toward zero: `Int.tdiv`, `Int.tmod`.
* C++ `double` values are modelled by exact rationals `ℚ`.  Every finite
  double is a rational; rounding of the arithmetic is not modelled, except
  in `Bird.jump_double` and `Bird.update_double`, which round every
  literal and every addition to binary64 with `toDouble` and are used where
  the rounding decides the property.
* The global `int score` is threaded explicitly and modelled by `Int`.
* Plain `char` is taken to be signed and 8 bits wide.
* Function-local `static` variables (`count` in `Bird::update`, `space` in
  `Pillar::update`) persist between calls, so they are fields of the state.
* `dist(engine)` is a draw from `[MIN_HEIGHT, MAX_HEIGHT]`; each call that may
  draw receives its draws as explicit arguments.
* `pipe_list.back()` on an empty deque is undefined behaviour; `Pillar.update`
  returns `none` there (and where the leading `assert` fails).
-/

namespace Flappy

/-- The constants of `config.hpp`. -/
structure Config where
  GAME_WIDTH : Int
  GAME_HEIGHT : Int
  GAME_FPS : Int
  deriving DecidableEq, Repr

/-- `enum class GameStatus`. -/
inductive GameStatus where
  | PENDING
  | RUNNING
  | PAUSE
  | ENDING
  deriving DecidableEq, Repr

/-! ## Bird -/

/-- `Bird::SIZE = GAME_WIDTH / 10`. -/
def Bird.SIZE (cfg : Config) : Int := Int.tdiv cfg.GAME_WIDTH 10

/-- `Bird::ACTION_NUM`. -/
def Bird.ACTION_NUM : Int := 4

/-- `Bird::IDLE_SPACE = GAME_FPS / 6`. -/
def Bird.IDLE_SPACE (cfg : Config) : Int := Int.tdiv cfg.GAME_FPS 6

/-- `Bird::POS_X = SIZE`. -/
def Bird.POS_X (cfg : Config) : Int := Bird.SIZE cfg

/-- `Bird::GRAVITY = 0.61`. -/
def Bird.GRAVITY : ℚ := 61 / 100

/-- `Bird::JUMP_SPEED = 9.8`. -/
def Bird.JUMP_SPEED : ℚ := 98 / 10

/-- The mutable fields of `Bird` (textures left out), together with the
function-local `static char count` of `Bird::update`. -/
structure Bird where
  index : Int
  y : ℚ
  v : ℚ
  count : Int
  deriving DecidableEq, Repr

/-- Conversion of an `int` back to `char`, taking plain `char` to be signed
and 8 bits wide: the value is reduced modulo 256 into `[-128, 127]`. -/
def toChar (n : Int) : Int := (n + 128) % 256 - 128

/-- The member initialisers of `Bird`, and `count = 0`. -/
def Bird.init (cfg : Config) : Bird :=
  { index := 0, y := ((cfg.GAME_HEIGHT - Bird.SIZE cfg : Int) : ℚ) / 2, v := 0, count := 0 }

/-- `Bird::update_index`. -/
def Bird.update_index (b : Bird) : Bird :=
  let index := b.index + 1
  if index = Bird.ACTION_NUM then { b with index := 0 } else { b with index := index }

/-- `Bird::update`.  The remainder `count % IDLE_SPACE` is the truncating one;
for `IDLE_SPACE = 0` (undefined in C++) it has the value `Int.tmod` gives. -/
def Bird.update (cfg : Config) (b : Bird) : Bird :=
  let count := toChar (b.count + 1)
  let v := b.v + Bird.GRAVITY
  let y := if b.y < ((cfg.GAME_HEIGHT + Bird.SIZE cfg : Int) : ℚ) ∨ v < 0 then b.y + v else b.y
  let b1 : Bird := { b with count := count, v := v, y := y }
  if Int.tmod count (Bird.IDLE_SPACE cfg) = 0 then Bird.update_index b1 else b1

/-- `Bird::jump`. -/
def Bird.jump (b : Bird) : Bird := { b with v := -Bird.JUMP_SPEED }

/-- `Bird::reset`. -/
def Bird.reset (cfg : Config) (b : Bird) : Bird :=
  { b with index := 0, y := ((cfg.GAME_HEIGHT - Bird.SIZE cfg : Int) : ℚ) / 2, v := 0 }

/-- `Bird::hit_bottom`. -/
def Bird.hit_bottom (cfg : Config) (b : Bird) : Bool :=
  decide (b.y + (Bird.SIZE cfg : ℚ) > (cfg.GAME_HEIGHT : ℚ))

/-- `Bird::hit_top`. -/
def Bird.hit_top (b : Bird) : Bool := decide (b.y < 0)

/-! ## Pillar -/

/-- `Pillar::WIDTH = GAME_WIDTH / 10`. -/
def Pillar.WIDTH (cfg : Config) : Int := Int.tdiv cfg.GAME_WIDTH 10

/-- `Pillar::MIN_HEIGHT = GAME_HEIGHT / 4`. -/
def Pillar.MIN_HEIGHT (cfg : Config) : Int := Int.tdiv cfg.GAME_HEIGHT 4

/-- `Pillar::MAX_HEIGHT = GAME_HEIGHT / 2`. -/
def Pillar.MAX_HEIGHT (cfg : Config) : Int := Int.tdiv cfg.GAME_HEIGHT 2

/-- `Pillar::INIT_V = 1.`. -/
def Pillar.INIT_V : ℚ := 1

/-- `Pillar::Pipe`: horizontal position `x` and the constant `y`. -/
structure Pipe where
  x : ℚ
  y : ℚ
  deriving DecidableEq, Repr

/-- The mutable fields of `Pillar` (texture and random engine left out),
together with the function-local `static double space` of `Pillar::update`. -/
structure Pillar where
  pipe_list : List Pipe
  v : ℚ
  space : ℚ
  deriving DecidableEq, Repr

/-- `Pillar::new_pillar`, with its two draws: `d1` decides the branch by its
parity, `d2` is the height. -/
def Pillar.new_pillar (cfg : Config) (p : Pillar) (d1 d2 : Int) : Pillar :=
  let v := Int.tmod d1 2
  let height := d2
  if v ≠ 0 then
    { p with pipe_list := p.pipe_list ++
        [{ x := (cfg.GAME_WIDTH : ℚ), y := ((height - Pillar.MAX_HEIGHT cfg : Int) : ℚ) }] }
  else
    { p with pipe_list := p.pipe_list ++
        [{ x := (cfg.GAME_WIDTH : ℚ), y := ((cfg.GAME_HEIGHT - height : Int) : ℚ) }] }

/-- The constructor `Pillar::Pillar`: `v = INIT_V`, one call of `new_pillar`;
the static `space` has its initialiser `Bird::SIZE * 1.5`. -/
def Pillar.init (cfg : Config) (d1 d2 : Int) : Pillar :=
  Pillar.new_pillar cfg
    { pipe_list := [], v := Pillar.INIT_V, space := (Bird.SIZE cfg : ℚ) * (3 / 2) } d1 d2

/-- The first loop of `Pillar::update`: `pos.x -= v` for every pipe. -/
def Pillar.move (v : ℚ) (l : List Pipe) : List Pipe :=
  l.map (fun pos => { pos with x := pos.x - v })

/-- The `while` loop of `Pillar::update`: pops front pipes with
`x < -WIDTH`, adding one to `score` for each and `0.5` to `v` whenever the
new score is a multiple of 10.  Returns the remaining list, score and `v`. -/
def Pillar.retire (cfg : Config) : List Pipe → Int → ℚ → List Pipe × Int × ℚ
  | [], score, v => ([], score, v)
  | pos :: rest, score, v =>
    if pos.x < ((-(Pillar.WIDTH cfg) : Int) : ℚ) then
      let score := score + 1
      if Int.tmod score 10 = 0 then Pillar.retire cfg rest score (v + 1 / 2)
      else Pillar.retire cfg rest score v
    else (pos :: rest, score, v)

/-- `Pillar::update` acting on the pillar and the global `score`.  The draws
`d1 d2` are those of `new_pillar`, `d3` the one for the new `space`; they are
used only when a pipe is spawned.  `none` stands for the failed `assert` and
for `back()` on an empty deque. -/
def Pillar.update (cfg : Config) (p : Pillar) (score : Int) (d1 d2 d3 : Int) :
    Option (Pillar × Int) :=
  if p.pipe_list = [] then none
  else
    let r := Pillar.retire cfg (Pillar.move p.v p.pipe_list) score p.v
    let p1 : Pillar := { p with pipe_list := r.1, v := r.2.2 }
    match r.1.getLast? with
    | none => none
    | some back =>
      if back.x < ((cfg.GAME_WIDTH - Pillar.WIDTH cfg : Int) : ℚ) - p.space then
        let p2 := Pillar.new_pillar cfg p1 d1 d2
        some ({ p2 with
                space := ((d3 : ℚ) / (Pillar.MAX_HEIGHT cfg : ℚ)) * 2 * (Bird.SIZE cfg : ℚ) },
              r.2.1)
      else some (p1, r.2.1)

/-- `Pillar::reset`. -/
def Pillar.reset (cfg : Config) (p : Pillar) (d1 d2 : Int) : Pillar :=
  Pillar.new_pillar cfg { p with v := Pillar.INIT_V, pipe_list := [] } d1 d2

/-! ## Collision -/

/-- `overlap1d`. -/
def overlap1d (range1 range2 : ℚ × ℚ) : Bool :=
  !(decide (range1.2 - range2.1 < 1) || decide (range2.2 - range1.1 < 1))

/-- The `for` loop of `collision_detection` over the pipes, for the bird's
two ranges: `true` at the first pipe overlapping on both axes, else `false`. -/
def collision_detection.go (cfg : Config) (bird_x_range bird_y_range : ℚ × ℚ) :
    List Pipe → Bool
  | [] => false
  | pipe :: rest =>
    if overlap1d bird_x_range (pipe.x, pipe.x + (Pillar.WIDTH cfg : ℚ))
        && overlap1d bird_y_range (pipe.y, pipe.y + (Pillar.MAX_HEIGHT cfg : ℚ)) then true
    else collision_detection.go cfg bird_x_range bird_y_range rest

/-- `collision_detection`. -/
def collision_detection (cfg : Config) (bird : Bird) (pillar : Pillar) : Bool :=
  let bird_x_range : ℚ × ℚ := ((Bird.POS_X cfg : ℚ), ((Bird.POS_X cfg + Bird.SIZE cfg : Int) : ℚ))
  let bird_y_range : ℚ × ℚ := (bird.y, bird.y + (Bird.SIZE cfg : ℚ))
  collision_detection.go cfg bird_x_range bird_y_range pillar.pipe_list

/-! ## The game loop -/

/-- The process-wide state read and written by the loop body of `main`:
the globals `game_status` and `score`, and the locals `bird` and `pillar`. -/
structure Game where
  game_status : GameStatus
  score : Int
  bird : Bird
  pillar : Pillar
  deriving DecidableEq, Repr

/-- What one iteration of the loop reads from outside: whether
`IsKeyPressed(KEY_ESCAPE)` and `IsKeyPressed(KEY_SPACE)` hold in this frame,
and the random draws available to the pillar in this frame. -/
structure Input where
  key_escape : Bool
  key_space : Bool
  d1 : Int
  d2 : Int
  d3 : Int
  deriving DecidableEq, Repr

/-- The state at entry of the loop of `main`: `PENDING`, score 0, a fresh
bird and a fresh pillar (built with draws `d1 d2`). -/
def Game.init (cfg : Config) (d1 d2 : Int) : Game :=
  { game_status := GameStatus.PENDING, score := 0, bird := Bird.init cfg,
    pillar := Pillar.init cfg d1 d2 }

/-- One iteration of the `while` loop of `main`: the `switch (game_status)`
block (drawing left out).  `none` when `Pillar::update` is undefined. -/
def tick (cfg : Config) (g : Game) (inp : Input) : Option Game :=
  match g.game_status with
  | GameStatus.PENDING =>
    if inp.key_space then some { g with game_status := GameStatus.RUNNING } else some g
  | GameStatus.RUNNING =>
    let status := if inp.key_escape then GameStatus.PAUSE else g.game_status
    let bird := if inp.key_space then Bird.jump g.bird else g.bird
    let bird := Bird.update cfg bird
    match Pillar.update cfg g.pillar g.score inp.d1 inp.d2 inp.d3 with
    | none => none
    | some (pillar, score) =>
      if Bird.hit_top bird || Bird.hit_bottom cfg bird || collision_detection cfg bird pillar then
        some { game_status := GameStatus.ENDING, score := score, bird := bird, pillar := pillar }
      else
        some { game_status := status, score := score, bird := bird, pillar := pillar }
  | GameStatus.PAUSE =>
    if inp.key_escape then some { g with game_status := GameStatus.RUNNING } else some g
  | GameStatus.ENDING =>
    if inp.key_space then
      some { game_status := GameStatus.RUNNING, score := 0, bird := Bird.reset cfg g.bird,
             pillar := Pillar.reset cfg g.pillar inp.d1 inp.d2 }
    else some g

/-! ## Sequences of pillar calls -/

/-- A call made on the pillar from outside, with the draws it may consume. -/
inductive PillarCall where
  | update (d1 d2 d3 : Int)
  | reset (d1 d2 : Int)
  deriving DecidableEq, Repr

/-- Whether every draw of the call lies in the range of `dist`,
`[MIN_HEIGHT, MAX_HEIGHT]`. -/
def PillarCall.inRange (cfg : Config) : PillarCall → Prop
  | PillarCall.update d1 d2 d3 =>
    (Pillar.MIN_HEIGHT cfg ≤ d1 ∧ d1 ≤ Pillar.MAX_HEIGHT cfg) ∧
    (Pillar.MIN_HEIGHT cfg ≤ d2 ∧ d2 ≤ Pillar.MAX_HEIGHT cfg) ∧
    (Pillar.MIN_HEIGHT cfg ≤ d3 ∧ d3 ≤ Pillar.MAX_HEIGHT cfg)
  | PillarCall.reset d1 d2 =>
    (Pillar.MIN_HEIGHT cfg ≤ d1 ∧ d1 ≤ Pillar.MAX_HEIGHT cfg) ∧
    (Pillar.MIN_HEIGHT cfg ≤ d2 ∧ d2 ≤ Pillar.MAX_HEIGHT cfg)

/-- Runs a sequence of calls on a pillar and the score, left to right;
`none` as soon as a call of `Pillar::update` is undefined. -/
def Pillar.run (cfg : Config) : Pillar × Int → List PillarCall → Option (Pillar × Int)
  | s, [] => some s
  | s, PillarCall.update d1 d2 d3 :: calls =>
    match Pillar.update cfg s.1 s.2 d1 d2 d3 with
    | none => none
    | some s1 => Pillar.run cfg s1 calls
  | s, PillarCall.reset d1 d2 :: calls =>
    Pillar.run cfg (Pillar.reset cfg s.1 d1 d2, s.2) calls

/-- The number of values among `score + 1, …, score + k` that are multiples
of 10: the values the score takes while `k` pipes are retired. -/
def tens (score : Int) (k : Nat) : Nat :=
  ((List.range k).filter (fun j : Nat => decide (Int.tmod (score + 1 + (j : Int)) 10 = 0))).length

/-- The speed ramp as a predicate on a pillar and the score: every pipe is at
`x ≤ GAME_WIDTH`, the score is non-negative, and `v` is `INIT_V` plus `0.5`
for every full ten of the score. -/
def Pillar.Ramp (cfg : Config) (s : Pillar × Int) : Prop :=
  (∀ pos ∈ s.1.pipe_list, pos.x ≤ (cfg.GAME_WIDTH : ℚ)) ∧ 0 ≤ s.2 ∧
    s.1.v = Pillar.INIT_V + (1 / 2) * ((s.2 / 10 : Int) : ℚ)

/-- Whether the call is a call of `Pillar::update`. -/
def PillarCall.isUpdate : PillarCall → Prop
  | PillarCall.update _ _ _ => True
  | PillarCall.reset _ _ => False

/-- The shape of the pipe list kept by `update` and `reset`: `v` is at least
`INIT_V`, every pipe is at `x ≤ GAME_WIDTH`, and the pipes are strictly
increasing in `x` from front to back. -/
def Pillar.Ordered (cfg : Config) (p : Pillar) : Prop :=
  Pillar.INIT_V ≤ p.v ∧ (∀ pos ∈ p.pipe_list, pos.x ≤ (cfg.GAME_WIDTH : ℚ)) ∧
    p.pipe_list.Pairwise (fun a b => a.x < b.x)

/-- Runs the loop body of `main` over a sequence of frames, left to right;
`none` as soon as a tick is undefined. -/
def Game.run (cfg : Config) : Game → List Input → Option Game
  | g, [] => some g
  | g, inp :: inps =>
    match tick cfg g inp with
    | none => none
    | some g1 => Game.run cfg g1 inps

/-- The state of a fresh pillar after `j` calls of `update` in which its
first pipe has not yet been retired: score 0, `v = INIT_V`, the first pipe
is at the front at `x = GAME_WIDTH - j`, every later pipe is at least one
unit to its right, and as long as no later pipe exists `space` still has its
initial value and the front pipe is not yet below the spawn threshold. -/
def Pillar.FirstGate (cfg : Config) (j : Nat) (s : Pillar × Int) : Prop :=
  s.2 = 0 ∧ s.1.v = Pillar.INIT_V ∧
  ∃ (first : Pipe) (rest : List Pipe), s.1.pipe_list = first :: rest ∧
    first.x = (cfg.GAME_WIDTH : ℚ) - (j : ℚ) ∧
    (∀ q ∈ rest, first.x + 1 ≤ q.x) ∧
    (rest = [] → s.1.space = (Bird.SIZE cfg : ℚ) * (3 / 2) ∧
      ¬ first.x < ((cfg.GAME_WIDTH - Pillar.WIDTH cfg : Int) : ℚ)
          - (Bird.SIZE cfg : ℚ) * (3 / 2))

/-! ## Binary64 arithmetic -/

/-- The power of two `2 ^ e` as a rational, for an integer exponent. -/
def pow2 (e : Int) : ℚ :=
  if 0 ≤ e then ((2 ^ e.toNat : Nat) : ℚ) else 1 / ((2 ^ (-e).toNat : Nat) : ℚ)

/-- The number of halvings that take `n` below 2 (that is `⌊log₂ n⌋` for
`n ≥ 1`), by recursion on a bound `fuel ≥ n`. -/
def natLog2 : Nat → Nat → Nat
  | 0, _ => 0
  | fuel + 1, n => if n < 2 then 0 else natLog2 fuel (n / 2) + 1

/-- For a positive rational `a`, the integer `e` with `2 ^ e ≤ a < 2 ^ (e + 1)`:
the difference of the logarithms of numerator and denominator, or one less. -/
def log2Floor (a : ℚ) : Int :=
  let e0 : Int := (natLog2 a.num.natAbs a.num.natAbs : Int) - (natLog2 a.den a.den : Int)
  if pow2 e0 ≤ a then e0 else e0 - 1

/-- Rounding of a non-negative rational to the nearest integer, a tie going
to the even neighbour. -/
def roundHalfEven (m : ℚ) : Int :=
  let f : Int := m.num / (m.den : Int)
  let frac : ℚ := m - (f : ℚ)
  if frac < 1 / 2 then f
  else if 1 / 2 < frac then f + 1
  else if f % 2 = 0 then f else f + 1

/-- The IEEE 754 binary64 value nearest to `q`, in the default rounding mode
(to nearest, ties to even): the magnitude is rounded to a 53-bit significand
at its own exponent.  Overflow and subnormal values are not modelled. -/
def toDouble (q : ℚ) : ℚ :=
  if q = 0 then 0
  else
    let a : ℚ := if q < 0 then -q else q
    let ulp : ℚ := pow2 (log2Floor a - 52)
    let r : ℚ := (roundHalfEven (a / ulp) : ℚ) * ulp
    if q < 0 then -r else r

/-- `Bird::GRAVITY`: the double that the literal `0.61` denotes. -/
def Bird.GRAVITY_double : ℚ := toDouble (61 / 100)

/-- `Bird::JUMP_SPEED`: the double that the literal `9.8` denotes. -/
def Bird.JUMP_SPEED_double : ℚ := toDouble (98 / 10)

/-- `Bird::jump` in binary64: `v = -JUMP_SPEED` (negation is exact). -/
def Bird.jump_double (b : Bird) : Bird := { b with v := -Bird.JUMP_SPEED_double }

/-- `Bird::update` in binary64, for a bird whose `y` and `v` are doubles:
`v += GRAVITY` and `y += v` each round their sum.  The `int` value
`GAME_HEIGHT + SIZE` is converted exactly. -/
def Bird.update_double (cfg : Config) (b : Bird) : Bird :=
  let count := toChar (b.count + 1)
  let v := toDouble (b.v + Bird.GRAVITY_double)
  let y := if b.y < ((cfg.GAME_HEIGHT + Bird.SIZE cfg : Int) : ℚ) ∨ v < 0
    then toDouble (b.y + v) else b.y
  let b1 : Bird := { b with count := count, v := v, y := y }
  if Int.tmod count (Bird.IDLE_SPACE cfg) = 0 then Bird.update_index b1 else b1

/-! # Theorems -/

theorem overlap1d_eq_true (r1 r2 : ℚ × ℚ) :
    overlap1d r1 r2 = true ↔ r1.2 - r2.1 ≥ 1 ∧ r2.2 - r1.1 ≥ 1 := by
  simp [overlap1d]

theorem collision_go_eq_true (cfg : Config) (bx by_ : ℚ × ℚ) (l : List Pipe) :
    collision_detection.go cfg bx by_ l = true ↔
      ∃ pipe ∈ l, overlap1d bx (pipe.x, pipe.x + (Pillar.WIDTH cfg : ℚ)) = true ∧
        overlap1d by_ (pipe.y, pipe.y + (Pillar.MAX_HEIGHT cfg : ℚ)) = true := by
  induction l with
  | nil => simp [collision_detection.go]
  | cons p ps ih =>
    simp only [collision_detection.go, List.mem_cons, exists_eq_or_imp]
    by_cases h : (overlap1d bx (p.x, p.x + (Pillar.WIDTH cfg : ℚ))
        && overlap1d by_ (p.y, p.y + (Pillar.MAX_HEIGHT cfg : ℚ))) = true
    · rw [if_pos h]
      simp only [Bool.and_eq_true] at h
      simp [h]
    · rw [if_neg h, ih]
      simp only [Bool.and_eq_true] at h
      simp [h]

/-- C3. `collision_detection(bird, pillar)` is true exactly when some pipe of
the list overlaps the bird on both axes, two ranges `[a0,a1]`, `[b0,b1]`
overlapping when `a1 - b0 ≥ 1` and `b1 - a0 ≥ 1`; it is false for the empty
list; and it is true whenever some pipe overlaps the bird by more than one
unit on both axes.  (Being a function to `Bool`, it changes no state.) -/
theorem collision_detection_spec (cfg : Config) (bird : Bird) (pillar : Pillar) :
    (collision_detection cfg bird pillar = true ↔
      ∃ pipe ∈ pillar.pipe_list,
        ((((Bird.POS_X cfg + Bird.SIZE cfg : Int) : ℚ) - pipe.x ≥ 1 ∧
          (pipe.x + (Pillar.WIDTH cfg : ℚ)) - (Bird.POS_X cfg : ℚ) ≥ 1) ∧
         ((bird.y + (Bird.SIZE cfg : ℚ)) - pipe.y ≥ 1 ∧
          (pipe.y + (Pillar.MAX_HEIGHT cfg : ℚ)) - bird.y ≥ 1))) ∧
    (pillar.pipe_list = [] → collision_detection cfg bird pillar = false) ∧
    (∀ pipe ∈ pillar.pipe_list,
        min ((Bird.POS_X cfg + Bird.SIZE cfg : Int) : ℚ) (pipe.x + (Pillar.WIDTH cfg : ℚ))
          - max (Bird.POS_X cfg : ℚ) pipe.x > 1 →
        min (bird.y + (Bird.SIZE cfg : ℚ)) (pipe.y + (Pillar.MAX_HEIGHT cfg : ℚ))
          - max bird.y pipe.y > 1 →
        collision_detection cfg bird pillar = true) := by
  have key : collision_detection cfg bird pillar = true ↔
      ∃ pipe ∈ pillar.pipe_list,
        ((((Bird.POS_X cfg + Bird.SIZE cfg : Int) : ℚ) - pipe.x ≥ 1 ∧
          (pipe.x + (Pillar.WIDTH cfg : ℚ)) - (Bird.POS_X cfg : ℚ) ≥ 1) ∧
         ((bird.y + (Bird.SIZE cfg : ℚ)) - pipe.y ≥ 1 ∧
          (pipe.y + (Pillar.MAX_HEIGHT cfg : ℚ)) - bird.y ≥ 1)) := by
    unfold collision_detection
    simp only [collision_go_eq_true, overlap1d_eq_true]
  refine ⟨key, ?_, ?_⟩
  · intro h
    cases hc : collision_detection cfg bird pillar with
    | false => rfl
    | true =>
      obtain ⟨p, hp, _⟩ := key.mp hc
      rw [h] at hp
      cases hp
  · intro pipe hp hx hy
    refine key.mpr ⟨pipe, hp, ⟨?_, ?_⟩, ⟨?_, ?_⟩⟩
    · have h1 := min_le_left ((Bird.POS_X cfg + Bird.SIZE cfg : Int) : ℚ) (pipe.x + (Pillar.WIDTH cfg : ℚ))
      have h2 := le_max_right (Bird.POS_X cfg : ℚ) pipe.x
      linarith
    · have h1 := min_le_right ((Bird.POS_X cfg + Bird.SIZE cfg : Int) : ℚ) (pipe.x + (Pillar.WIDTH cfg : ℚ))
      have h2 := le_max_left (Bird.POS_X cfg : ℚ) pipe.x
      linarith
    · have h1 := min_le_left (bird.y + (Bird.SIZE cfg : ℚ)) (pipe.y + (Pillar.MAX_HEIGHT cfg : ℚ))
      have h2 := le_max_right bird.y pipe.y
      linarith
    · have h1 := min_le_right (bird.y + (Bird.SIZE cfg : ℚ)) (pipe.y + (Pillar.MAX_HEIGHT cfg : ℚ))
      have h2 := le_max_left bird.y pipe.y
      linarith

theorem Bird.update_index_y (b : Bird) : (Bird.update_index b).y = b.y := by
  unfold Bird.update_index; simp only; split <;> rfl

theorem Bird.update_index_v (b : Bird) : (Bird.update_index b).v = b.v := by
  unfold Bird.update_index; simp only; split <;> rfl

theorem Bird.update_double_v (cfg : Config) (b : Bird) :
    (Bird.update_double cfg b).v = toDouble (b.v + Bird.GRAVITY_double) := by
  unfold Bird.update_double
  simp only
  split
  · rw [Bird.update_index_v]
  · rfl

theorem Bird.update_double_y (cfg : Config) (b : Bird) :
    (Bird.update_double cfg b).y =
      if b.y < ((cfg.GAME_HEIGHT + Bird.SIZE cfg : Int) : ℚ) ∨
          toDouble (b.v + Bird.GRAVITY_double) < 0
      then toDouble (b.y + toDouble (b.v + Bird.GRAVITY_double)) else b.y := by
  unfold Bird.update_double
  simp only
  split
  · rw [Bird.update_index_y]
  · rfl

/-- Reference values of `toDouble`: the doubles denoted by `0.61`, `9.8` and
`0.1`, a value kept as it is, and two ties at `2^53`, which go to the even
significand. -/
theorem toDouble_values :
    Bird.GRAVITY_double = 5494391545392005 / 2 ^ 53 ∧
    Bird.JUMP_SPEED_double = 2758454771764429 / 2 ^ 48 ∧
    toDouble (1 / 10) = 3602879701896397 / 2 ^ 55 ∧
    toDouble 280 = 280 ∧
    toDouble (2 ^ 53 + 1) = 2 ^ 53 ∧
    toDouble (2 ^ 53 + 3) = 2 ^ 53 + 4 := by
  refine ⟨?_, ?_, ?_, ?_, ?_, ?_⟩ <;> decide!

/-- C5, the claim as stated fails in double arithmetic.  With
`GAME_WIDTH = 400`, `GAME_HEIGHT = 600` the fresh bird is at `y = 280`; after
`jump()` and `update()` the velocity is the double `-2586755035970929 / 2^48`
(about -9.1900000000000013) and the position the double
`4764139902688297 / 2^44`, so the position has changed by
`-161672189748183 / 2^44` (about -9.1899999999999977): not by the velocity,
not by `GRAVITY - JUMP_SPEED` taken exactly, and not by the difference of the
two constants as doubles.  From `y = 0` the change does equal the velocity,
so the change depends on the position. -/
theorem Bird.jump_then_update_rounds :
    (Bird.init ⟨400, 600, 60⟩).y = 280 ∧
    (Bird.update_double ⟨400, 600, 60⟩ (Bird.jump_double (Bird.init ⟨400, 600, 60⟩))).v
      = -2586755035970929 / 2 ^ 48 ∧
    (Bird.update_double ⟨400, 600, 60⟩ (Bird.jump_double (Bird.init ⟨400, 600, 60⟩))).y
      = 4764139902688297 / 2 ^ 44 ∧
    (Bird.update_double ⟨400, 600, 60⟩ (Bird.jump_double (Bird.init ⟨400, 600, 60⟩))).y - 280
      = -161672189748183 / 2 ^ 44 ∧
    (Bird.update_double ⟨400, 600, 60⟩ (Bird.jump_double (Bird.init ⟨400, 600, 60⟩))).y - 280
      ≠ (Bird.update_double ⟨400, 600, 60⟩ (Bird.jump_double (Bird.init ⟨400, 600, 60⟩))).v ∧
    (Bird.update_double ⟨400, 600, 60⟩ (Bird.jump_double (Bird.init ⟨400, 600, 60⟩))).y - 280
      ≠ Bird.GRAVITY - Bird.JUMP_SPEED ∧
    (Bird.update_double ⟨400, 600, 60⟩ (Bird.jump_double (Bird.init ⟨400, 600, 60⟩))).y - 280
      ≠ Bird.GRAVITY_double - Bird.JUMP_SPEED_double ∧
    (Bird.update_double ⟨400, 600, 60⟩
        (Bird.jump_double { index := 0, y := 0, v := 0, count := 0 })).y - 0
      = (Bird.update_double ⟨400, 600, 60⟩
        (Bird.jump_double { index := 0, y := 0, v := 0, count := 0 })).v := by
  refine ⟨?_, ?_, ?_, ?_, ?_, ?_, ?_, ?_⟩ <;> decide!

/-- C5, amended.  In double arithmetic, `jump()` followed at once by `update()`
gives the velocity `-JUMP_SPEED + GRAVITY` rounded once, which is negative and
does not depend on the prior velocity, and sets the position to the rounded
sum of the old position and that velocity, whatever the position (the guard
never holds the position back); the whole result is the same for every prior
velocity; `jump()` alone leaves the position and the animation index as they
were. -/
theorem Bird.jump_then_update_double (cfg : Config) (b : Bird) :
    (Bird.update_double cfg (Bird.jump_double b)).v
      = toDouble (-Bird.JUMP_SPEED_double + Bird.GRAVITY_double) ∧
    toDouble (-Bird.JUMP_SPEED_double + Bird.GRAVITY_double) < 0 ∧
    (Bird.update_double cfg (Bird.jump_double b)).y
      = toDouble (b.y + toDouble (-Bird.JUMP_SPEED_double + Bird.GRAVITY_double)) ∧
    (∀ v0 : ℚ, Bird.update_double cfg (Bird.jump_double { b with v := v0 })
      = Bird.update_double cfg (Bird.jump_double b)) ∧
    (Bird.jump_double b).y = b.y ∧ (Bird.jump_double b).index = b.index := by
  have hneg : toDouble (-Bird.JUMP_SPEED_double + Bird.GRAVITY_double) < 0 := by decide!
  refine ⟨?_, hneg, ?_, fun _ => rfl, rfl, rfl⟩
  · rw [Bird.update_double_v]; rfl
  · rw [Bird.update_double_y]
    simp only [Bird.jump_double]
    rw [if_pos (Or.inr hneg)]

theorem tens_zero (score : Int) : tens score 0 = 0 := rfl

theorem tens_succ (score : Int) (k : Nat) :
    tens score (k + 1) =
      (if Int.tmod (score + 1) 10 = 0 then 1 else 0) + tens (score + 1) k := by
  unfold tens
  rw [List.range_succ_eq_map, List.filter_cons, List.filter_map]
  have hfun : ((fun j : ℕ => decide (Int.tmod (score + 1 + (j : Int)) 10 = 0)) ∘ Nat.succ)
      = (fun j : ℕ => decide (Int.tmod (score + 1 + 1 + (j : Int)) 10 = 0)) := by
    funext j
    simp only [Function.comp, Nat.succ_eq_add_one, Nat.cast_add, Nat.cast_one]
    congr 3
    ring
  rw [hfun]
  by_cases h : Int.tmod (score + 1) 10 = 0
  · simp [h]; omega
  · simp [h]

theorem Pillar.retire_spec (cfg : Config) (l : List Pipe) :
    ∀ (score : Int) (v : ℚ), ∃ k : Nat, k ≤ l.length ∧
      (Pillar.retire cfg l score v).1 = l.drop k ∧
      (Pillar.retire cfg l score v).2.1 = score + k ∧
      (Pillar.retire cfg l score v).2.2 = v + (1 / 2) * (tens score k : ℚ) := by
  induction l with
  | nil =>
    intro score v
    exact ⟨0, le_refl _, rfl, by simp [Pillar.retire], by simp [Pillar.retire, tens_zero]⟩
  | cons p ps ih =>
    intro score v
    by_cases hx : p.x < ((-(Pillar.WIDTH cfg) : Int) : ℚ)
    · by_cases hm : Int.tmod (score + 1) 10 = 0
      · obtain ⟨k, hk, h1, h2, h3⟩ := ih (score + 1) (v + 1 / 2)
        refine ⟨k + 1, by simpa using hk, ?_, ?_, ?_⟩
        · simp only [Pillar.retire, if_pos hx, if_pos hm, List.drop_succ_cons]; exact h1
        · simp only [Pillar.retire, if_pos hx, if_pos hm]; rw [h2]; push_cast; ring
        · simp only [Pillar.retire, if_pos hx, if_pos hm]; rw [h3, tens_succ, if_pos hm]
          push_cast; ring
      · obtain ⟨k, hk, h1, h2, h3⟩ := ih (score + 1) v
        refine ⟨k + 1, by simpa using hk, ?_, ?_, ?_⟩
        · simp only [Pillar.retire, if_pos hx, if_neg hm, List.drop_succ_cons]; exact h1
        · simp only [Pillar.retire, if_pos hx, if_neg hm]; rw [h2]; push_cast; ring
        · simp only [Pillar.retire, if_pos hx, if_neg hm]; rw [h3, tens_succ, if_neg hm]
          push_cast; ring
    · refine ⟨0, Nat.zero_le _, ?_, ?_, ?_⟩
      · simp only [Pillar.retire, if_neg hx, List.drop_zero]
      · simp only [Pillar.retire, if_neg hx]; simp
      · simp only [Pillar.retire, if_neg hx, tens_zero]; simp

theorem Pillar.move_length (v : ℚ) (l : List Pipe) : (Pillar.move v l).length = l.length := by
  simp [Pillar.move]

theorem Pillar.new_pillar_v (cfg : Config) (p : Pillar) (d1 d2 : Int) :
    (Pillar.new_pillar cfg p d1 d2).v = p.v := by
  unfold Pillar.new_pillar; simp only; split <;> rfl

theorem Pillar.new_pillar_space (cfg : Config) (p : Pillar) (d1 d2 : Int) :
    (Pillar.new_pillar cfg p d1 d2).space = p.space := by
  unfold Pillar.new_pillar; simp only; split <;> rfl

theorem Pillar.new_pillar_list (cfg : Config) (p : Pillar) (d1 d2 : Int) :
    ∃ pipe : Pipe, pipe.x = (cfg.GAME_WIDTH : ℚ) ∧
      (Pillar.new_pillar cfg p d1 d2).pipe_list = p.pipe_list ++ [pipe] := by
  unfold Pillar.new_pillar; simp only
  split
  · exact ⟨_, rfl, rfl⟩
  · exact ⟨_, rfl, rfl⟩

/-- C2. In a call of `Pillar::update` on a non-empty list, let `k` be the
number of pipes the loop pops from the front.  If `k` is the whole list the
call is undefined; otherwise it returns, the score has grown by exactly `k`,
and `v` has grown by exactly `0.5` for each of the values
`score + 1, …, score + k` that is a multiple of 10; with `k = 0` both are
unchanged. -/
theorem Pillar.update_score_speed (cfg : Config) (p : Pillar) (score d1 d2 d3 : Int)
    (hne : p.pipe_list ≠ []) :
    ∃ k : Nat, k ≤ p.pipe_list.length ∧
      (Pillar.retire cfg (Pillar.move p.v p.pipe_list) score p.v).1
        = (Pillar.move p.v p.pipe_list).drop k ∧
      (k = p.pipe_list.length → Pillar.update cfg p score d1 d2 d3 = none) ∧
      (k < p.pipe_list.length →
        ∃ (p' : Pillar) (extra : List Pipe),
          Pillar.update cfg p score d1 d2 d3 = some (p', score + k) ∧
          p'.pipe_list = (Pillar.move p.v p.pipe_list).drop k ++ extra ∧
          extra.length ≤ 1 ∧
          p'.v = p.v + (1 / 2) * (tens score k : ℚ) ∧
          (k = 0 → p'.v = p.v)) := by
  obtain ⟨k, hk, h1, h2, h3⟩ := Pillar.retire_spec cfg (Pillar.move p.v p.pipe_list) score p.v
  rw [Pillar.move_length] at hk
  refine ⟨k, hk, h1, ?_, ?_⟩
  · intro hkl
    unfold Pillar.update
    rw [if_neg hne]
    simp only
    rw [h1, List.drop_of_length_le (by rw [Pillar.move_length]; omega)]
    rfl
  · intro hkl
    have hlen : ((Pillar.move p.v p.pipe_list).drop k).length ≠ 0 := by
      rw [List.length_drop, Pillar.move_length]; omega
    obtain ⟨back, hback⟩ : ∃ back, ((Pillar.move p.v p.pipe_list).drop k).getLast? = some back := by
      have hne2 : (Pillar.move p.v p.pipe_list).drop k ≠ [] := by
        intro hd; rw [hd] at hlen; simp at hlen
      exact ⟨_, List.getLast?_eq_getLast _ hne2⟩
    have hv0 : k = 0 → p.v + (1 / 2) * (tens score k : ℚ) = p.v := by
      intro h0; subst h0; simp [tens_zero]
    unfold Pillar.update
    rw [if_neg hne]
    simp only
    rw [h1, hback]
    simp only
    split
    · obtain ⟨pipe, _, hl⟩ := Pillar.new_pillar_list cfg
        { p with pipe_list := (Pillar.move p.v p.pipe_list).drop k,
                 v := (Pillar.retire cfg (Pillar.move p.v p.pipe_list) score p.v).2.2 } d1 d2
      refine ⟨_, [pipe], by rw [h2], ?_, by simp, ?_, ?_⟩
      · simpa using hl
      · simp only [Pillar.new_pillar_v]; exact h3
      · intro h0; simp only [Pillar.new_pillar_v]; rw [h3]; exact hv0 h0
    · refine ⟨_, [], by rw [h2], by simp, by simp, h3, ?_⟩
      intro h0; rw [h3]; exact hv0 h0

theorem tick_running (cfg : Config) (g : Game) (inp : Input) (p' : Pillar) (score' : Int)
    (hrun : g.game_status = GameStatus.RUNNING)
    (hupd : Pillar.update cfg g.pillar g.score inp.d1 inp.d2 inp.d3 = some (p', score')) :
    tick cfg g inp = some
      { game_status :=
          if (Bird.hit_top (Bird.update cfg (if inp.key_space then Bird.jump g.bird else g.bird))
              || Bird.hit_bottom cfg
                  (Bird.update cfg (if inp.key_space then Bird.jump g.bird else g.bird))
              || collision_detection cfg
                  (Bird.update cfg (if inp.key_space then Bird.jump g.bird else g.bird)) p') = true
          then GameStatus.ENDING
          else if inp.key_escape then GameStatus.PAUSE else GameStatus.RUNNING,
        score := score',
        bird := Bird.update cfg (if inp.key_space then Bird.jump g.bird else g.bird),
        pillar := p' } := by
  unfold tick
  rw [hrun]
  simp only [hupd]
  split_ifs <;> rfl

theorem tick_running_none (cfg : Config) (g : Game) (inp : Input)
    (hrun : g.game_status = GameStatus.RUNNING)
    (hupd : Pillar.update cfg g.pillar g.score inp.d1 inp.d2 inp.d3 = none) :
    tick cfg g inp = none := by
  unfold tick
  rw [hrun]
  simp only [hupd]

/-- C6. A tick that begins in `RUNNING`, with `Pillar::update` defined, ends
in `ENDING` exactly when, for the bird and pillar as they are after this
tick's `Bird::update` and `Pillar::update`, `hit_top()`, `hit_bottom()` or
`collision_detection` holds. -/
theorem tick_running_ending_iff (cfg : Config) (g : Game) (inp : Input)
    (p' : Pillar) (score' : Int)
    (hrun : g.game_status = GameStatus.RUNNING)
    (hupd : Pillar.update cfg g.pillar g.score inp.d1 inp.d2 inp.d3 = some (p', score')) :
    ∃ g', tick cfg g inp = some g' ∧
      g'.bird = Bird.update cfg (if inp.key_space then Bird.jump g.bird else g.bird) ∧
      g'.pillar = p' ∧ g'.score = score' ∧
      (g'.game_status = GameStatus.ENDING ↔
        (Bird.hit_top g'.bird = true ∨ Bird.hit_bottom cfg g'.bird = true ∨
          collision_detection cfg g'.bird g'.pillar = true)) := by
  refine ⟨_, tick_running cfg g inp p' score' hrun hupd, rfl, rfl, rfl, ?_⟩
  simp only
  by_cases h : (Bird.hit_top (Bird.update cfg (if inp.key_space then Bird.jump g.bird else g.bird))
              || Bird.hit_bottom cfg
                  (Bird.update cfg (if inp.key_space then Bird.jump g.bird else g.bird))
              || collision_detection cfg
                  (Bird.update cfg (if inp.key_space then Bird.jump g.bird else g.bird)) p') = true
  · rw [if_pos h]
    simp only [Bool.or_eq_true] at h
    simp only [true_iff]
    tauto
  · rw [if_neg h]
    simp only [Bool.or_eq_true] at h
    constructor
    · intro he
      split at he <;> cases he
    · intro hh
      exact absurd (by tauto) h

/-- C7. In `ENDING`, a tick with `KEY_SPACE` pressed gives `RUNNING`, score 0,
the bird at `y = (GAME_HEIGHT - SIZE) / 2`, velocity 0, index 0, and a pillar
with exactly one pipe, at `x = GAME_WIDTH`, and `v = INIT_V`; a tick without
it leaves the state as it is, in `ENDING`. -/
theorem tick_ending (cfg : Config) (g : Game) (inp : Input)
    (hend : g.game_status = GameStatus.ENDING) :
    (inp.key_space = true →
      ∃ g' pipe, tick cfg g inp = some g' ∧
        g'.game_status = GameStatus.RUNNING ∧ g'.score = 0 ∧
        g'.bird.y = ((cfg.GAME_HEIGHT - Bird.SIZE cfg : Int) : ℚ) / 2 ∧
        g'.bird.v = 0 ∧ g'.bird.index = 0 ∧
        g'.pillar.pipe_list = [pipe] ∧ pipe.x = (cfg.GAME_WIDTH : ℚ) ∧
        g'.pillar.v = Pillar.INIT_V) ∧
    (inp.key_space = false →
      tick cfg g inp = some g ∧ g.game_status = GameStatus.ENDING) := by
  constructor
  · intro hs
    obtain ⟨pipe, hx, hl⟩ := Pillar.new_pillar_list cfg
      { g.pillar with v := Pillar.INIT_V, pipe_list := [] } inp.d1 inp.d2
    refine ⟨{ game_status := GameStatus.RUNNING, score := 0, bird := Bird.reset cfg g.bird,
              pillar := Pillar.reset cfg g.pillar inp.d1 inp.d2 }, pipe,
      ?_, rfl, rfl, rfl, rfl, rfl, ?_, hx, ?_⟩
    · unfold tick; rw [hend]; simp only [hs, if_true]
    · simpa [Pillar.reset] using hl
    · simp [Pillar.reset, Pillar.new_pillar_v]
  · intro hs
    refine ⟨?_, hend⟩
    unfold tick; rw [hend]; simp [hs]

/-- C8, the claim as stated fails: with `GAME_WIDTH = 400`, `GAME_HEIGHT = 600`,
a game in `RUNNING` whose bird is at `y = 555` (inside the world) falling with
velocity 8, in a tick where `KEY_ESCAPE` is pressed, ends in `ENDING`, not
`PAUSE`: the bird is moved to 563.61 and `hit_bottom()` holds. -/
theorem tick_pause_overridden :
    (tick ⟨400, 600, 60⟩
        { game_status := GameStatus.RUNNING, score := 0,
          bird := { index := 0, y := 555, v := 8, count := 0 },
          pillar := { pipe_list := [{ x := 400, y := 300 }], v := 1, space := 60 } }
        { key_escape := true, key_space := false, d1 := 300, d2 := 300, d3 := 300 }).map
      (fun g => g.game_status) = some GameStatus.ENDING := by
  decide!


/-- C8, amended. A tick that begins in `RUNNING` with `KEY_ESCAPE` pressed,
`Pillar::update` being defined, still runs the physics; it ends in `ENDING`
when `hit_top()`, `hit_bottom()` or `collision_detection` holds afterwards,
and in `PAUSE` otherwise. -/
theorem tick_running_pause (cfg : Config) (g : Game) (inp : Input)
    (p' : Pillar) (score' : Int)
    (hrun : g.game_status = GameStatus.RUNNING)
    (hesc : inp.key_escape = true)
    (hupd : Pillar.update cfg g.pillar g.score inp.d1 inp.d2 inp.d3 = some (p', score')) :
    ∃ g', tick cfg g inp = some g' ∧
      g'.bird = Bird.update cfg (if inp.key_space then Bird.jump g.bird else g.bird) ∧
      g'.pillar = p' ∧
      ((Bird.hit_top g'.bird = true ∨ Bird.hit_bottom cfg g'.bird = true ∨
          collision_detection cfg g'.bird g'.pillar = true) →
        g'.game_status = GameStatus.ENDING) ∧
      (¬ (Bird.hit_top g'.bird = true ∨ Bird.hit_bottom cfg g'.bird = true ∨
          collision_detection cfg g'.bird g'.pillar = true) →
        g'.game_status = GameStatus.PAUSE) := by
  refine ⟨_, tick_running cfg g inp p' score' hrun hupd, rfl, rfl, ?_, ?_⟩
  · intro h
    simp only
    rw [if_pos]
    simp only [Bool.or_eq_true]
    tauto
  · intro h
    simp only
    rw [if_neg, if_pos hesc]
    simp only [Bool.or_eq_true]
    tauto

/-- Witness for C8 amended: `GAME_WIDTH = 400`, `GAME_HEIGHT = 600`, the bird
in mid-air at `y = 280`, `KEY_ESCAPE` pressed: the tick ends in `PAUSE`. -/
theorem tick_running_pause_witness :
    ∃ g', tick ⟨400, 600, 60⟩
        { game_status := GameStatus.RUNNING, score := 0,
          bird := { index := 0, y := 280, v := 0, count := 0 },
          pillar := { pipe_list := [{ x := 400, y := 300 }], v := 1, space := 60 } }
        { key_escape := true, key_space := false, d1 := 300, d2 := 300, d3 := 300 } = some g' ∧
      g'.game_status = GameStatus.PAUSE := by
  obtain ⟨g', h1, hb, hp, _, h2⟩ := tick_running_pause ⟨400, 600, 60⟩
    { game_status := GameStatus.RUNNING, score := 0,
      bird := { index := 0, y := 280, v := 0, count := 0 },
      pillar := { pipe_list := [{ x := 400, y := 300 }], v := 1, space := 60 } }
    { key_escape := true, key_space := false, d1 := 300, d2 := 300, d3 := 300 }
    { pipe_list := [{ x := 399, y := 300 }], v := 1, space := 60 } 0 rfl rfl (by decide!)
  refine ⟨g', h1, h2 ?_⟩
  rw [hb, hp]
  decide!

/-- C9. A tick that begins in `PENDING` or `PAUSE` (any input), or in `ENDING`
without `KEY_SPACE`, leaves the bird, the pillar and the score unchanged.  A
tick that begins in `RUNNING` applies `Bird::update` once to the bird (after
`jump()` when `KEY_SPACE` is pressed) and `Pillar::update` once to the pillar
and score; it is undefined exactly when that `Pillar::update` is. -/
theorem tick_physics_only_running (cfg : Config) (g : Game) (inp : Input) :
    ((g.game_status = GameStatus.PENDING ∨ g.game_status = GameStatus.PAUSE ∨
        (g.game_status = GameStatus.ENDING ∧ inp.key_space = false)) →
      ∃ g', tick cfg g inp = some g' ∧
        g'.bird = g.bird ∧ g'.pillar = g.pillar ∧ g'.score = g.score) ∧
    (g.game_status = GameStatus.RUNNING →
      (∀ g', tick cfg g inp = some g' →
        g'.bird = Bird.update cfg (if inp.key_space then Bird.jump g.bird else g.bird) ∧
        Pillar.update cfg g.pillar g.score inp.d1 inp.d2 inp.d3 = some (g'.pillar, g'.score)) ∧
      (tick cfg g inp = none ↔
        Pillar.update cfg g.pillar g.score inp.d1 inp.d2 inp.d3 = none)) := by
  constructor
  · rintro (h | h | ⟨h, hs⟩)
    · unfold tick; rw [h]
      by_cases hk : inp.key_space = true
      · exact ⟨{ g with game_status := GameStatus.RUNNING }, by simp only [hk, if_true],
          rfl, rfl, rfl⟩
      · exact ⟨g, by simp only [hk]; rfl, rfl, rfl, rfl⟩
    · unfold tick; rw [h]
      by_cases hk : inp.key_escape = true
      · exact ⟨{ g with game_status := GameStatus.RUNNING }, by simp only [hk, if_true],
          rfl, rfl, rfl⟩
      · exact ⟨g, by simp only [hk]; rfl, rfl, rfl, rfl⟩
    · unfold tick; rw [h]
      exact ⟨g, by simp [hs], rfl, rfl, rfl⟩
  · intro hrun
    cases hupd : Pillar.update cfg g.pillar g.score inp.d1 inp.d2 inp.d3 with
    | none =>
      have hn := tick_running_none cfg g inp hrun hupd
      refine ⟨?_, ?_⟩
      · intro g' hg'
        rw [hn] at hg'
        cases hg'
      · simp [hn]
    | some r =>
      obtain ⟨p', score'⟩ := r
      have hs := tick_running cfg g inp p' score' hrun hupd
      refine ⟨?_, ?_⟩
      · intro g' hg'
        rw [hs] at hg'
        cases hg'
        exact ⟨rfl, rfl⟩
      · simp [hs]

/-- Witness for C3: `GAME_WIDTH = 400`, `GAME_HEIGHT = 600`, the bird at
`y = 280` and a pipe at `x = 50`, `y = 300`, which overlaps the bird by 30
units horizontally and 20 vertically: a collision. -/
theorem collision_detection_spec_witness :
    collision_detection ⟨400, 600, 60⟩ { index := 0, y := 280, v := 0, count := 0 }
      { pipe_list := [{ x := 50, y := 300 }], v := 1, space := 60 } = true :=
  (collision_detection_spec ⟨400, 600, 60⟩ { index := 0, y := 280, v := 0, count := 0 }
    { pipe_list := [{ x := 50, y := 300 }], v := 1, space := 60 }).2.2
    { x := 50, y := 300 } (List.mem_singleton.mpr rfl) (by decide!) (by decide!)

/-- Witness for C2: `GAME_WIDTH = 10`, `GAME_HEIGHT = 8`, pipes at `x = -1` and
`x = 10`, `v = 1`, score 9: one pipe is retired, the score becomes 10 and `v`
becomes `1.5`. -/
theorem Pillar.update_score_speed_witness :
    ∃ p', Pillar.update ⟨10, 8, 60⟩
        { pipe_list := [{ x := -1, y := 4 }, { x := 10, y := 4 }], v := 1, space := 2 }
        9 4 4 4 = some (p', 10) ∧ p'.v = 3 / 2 := by
  obtain ⟨k, _, hk, hall, hsome⟩ := Pillar.update_score_speed ⟨10, 8, 60⟩
    { pipe_list := [{ x := -1, y := 4 }, { x := 10, y := 4 }], v := 1, space := 2 }
    9 4 4 4 (List.cons_ne_nil _ _)
  have hr : (Pillar.retire ⟨10, 8, 60⟩
      (Pillar.move 1 [{ x := -1, y := 4 }, { x := 10, y := 4 }]) 9 1).1
      = [{ x := 9, y := 4 }] := by decide!
  have hm : Pillar.move 1 [{ x := -1, y := 4 }, { x := 10, y := 4 }]
      = [{ x := -2, y := 4 }, { x := 9, y := 4 }] := by decide!
  simp only at hk hsome
  rw [hr, hm] at hk
  have hk1 : k = 1 := by
    match k, hk with
    | 0, hk => simp at hk
    | 1, _ => rfl
    | (n + 2), hk => simp at hk
  subst hk1
  obtain ⟨p', extra, h1, _, _, h4, _⟩ := hsome (by simp)
  refine ⟨p', h1, ?_⟩
  rw [h4]
  have : tens 9 1 = 1 := by decide
  rw [this]
  norm_num

/-- Witness for C6: `GAME_WIDTH = 400`, `GAME_HEIGHT = 600`, a bird at `y = 555`
falling with velocity 8: after the tick `hit_bottom()` holds and the state is
`ENDING`. -/
theorem tick_running_ending_iff_witness :
    ∃ g', tick ⟨400, 600, 60⟩
        { game_status := GameStatus.RUNNING, score := 0,
          bird := { index := 0, y := 555, v := 8, count := 0 },
          pillar := { pipe_list := [{ x := 400, y := 300 }], v := 1, space := 60 } }
        { key_escape := false, key_space := false, d1 := 300, d2 := 300, d3 := 300 } = some g' ∧
      g'.game_status = GameStatus.ENDING := by
  obtain ⟨g', h1, hb, _, _, hiff⟩ := tick_running_ending_iff ⟨400, 600, 60⟩
    { game_status := GameStatus.RUNNING, score := 0,
      bird := { index := 0, y := 555, v := 8, count := 0 },
      pillar := { pipe_list := [{ x := 400, y := 300 }], v := 1, space := 60 } }
    { key_escape := false, key_space := false, d1 := 300, d2 := 300, d3 := 300 }
    { pipe_list := [{ x := 399, y := 300 }], v := 1, space := 60 } 0 rfl (by decide!)
  refine ⟨g', h1, hiff.mpr (Or.inr (Or.inl ?_))⟩
  rw [hb]
  decide!

/-- Witness for C7: `GAME_WIDTH = 400`, `GAME_HEIGHT = 600`, a game in `ENDING`
with score 3 and `KEY_SPACE` pressed: the tick gives `RUNNING` with score 0. -/
theorem tick_ending_witness :
    ∃ g', tick ⟨400, 600, 60⟩
        { game_status := GameStatus.ENDING, score := 3,
          bird := { index := 2, y := 563, v := 9, count := 7 },
          pillar := { pipe_list := [{ x := 100, y := 300 }, { x := 300, y := -20 }],
                      v := 1, space := 60 } }
        { key_escape := false, key_space := true, d1 := 300, d2 := 300, d3 := 300 } = some g' ∧
      g'.game_status = GameStatus.RUNNING ∧ g'.score = 0 ∧ g'.bird.y = 280 ∧
      g'.pillar.pipe_list.length = 1 := by
  obtain ⟨g', pipe, h1, h2, h3, h4, _, _, h7, _, _⟩ := (tick_ending ⟨400, 600, 60⟩
    { game_status := GameStatus.ENDING, score := 3,
      bird := { index := 2, y := 563, v := 9, count := 7 },
      pillar := { pipe_list := [{ x := 100, y := 300 }, { x := 300, y := -20 }],
                  v := 1, space := 60 } }
    { key_escape := false, key_space := true, d1 := 300, d2 := 300, d3 := 300 } rfl).1 rfl
  refine ⟨g', h1, h2, h3, ?_, by rw [h7]; rfl⟩
  rw [h4]
  norm_num [Bird.SIZE, Int.tdiv]

/-- Witness for C9: `GAME_WIDTH = 400`, `GAME_HEIGHT = 600`, a game in `PAUSE`
with `KEY_SPACE` pressed: bird, pillar and score stay as they are. -/
theorem tick_physics_only_running_witness :
    ∃ g', tick ⟨400, 600, 60⟩
        { game_status := GameStatus.PAUSE, score := 3,
          bird := { index := 2, y := 200, v := 9, count := 7 },
          pillar := { pipe_list := [{ x := 100, y := 300 }], v := 1, space := 60 } }
        { key_escape := false, key_space := true, d1 := 300, d2 := 300, d3 := 300 } = some g' ∧
      g'.bird = { index := 2, y := 200, v := 9, count := 7 } ∧
      g'.pillar = { pipe_list := [{ x := 100, y := 300 }], v := 1, space := 60 } ∧
      g'.score = 3 :=
  (tick_physics_only_running ⟨400, 600, 60⟩
    { game_status := GameStatus.PAUSE, score := 3,
      bird := { index := 2, y := 200, v := 9, count := 7 },
      pillar := { pipe_list := [{ x := 100, y := 300 }], v := 1, space := 60 } }
    { key_escape := false, key_space := true, d1 := 300, d2 := 300, d3 := 300 }).1
    (Or.inr (Or.inl rfl))

/-! ## The pillar list can be emptied -/

theorem Pillar.retire_keep (cfg : Config) (pos : Pipe) (rest : List Pipe) (score : Int) (v : ℚ)
    (h : ¬ pos.x < ((-(Pillar.WIDTH cfg) : Int) : ℚ)) :
    Pillar.retire cfg (pos :: rest) score v = (pos :: rest, score, v) := by
  simp only [Pillar.retire, if_neg h]

theorem Pillar.retire_score_ge (cfg : Config) (l : List Pipe) (score : Int) (v : ℚ) :
    score ≤ (Pillar.retire cfg l score v).2.1 := by
  obtain ⟨k, _, _, h2, _⟩ := Pillar.retire_spec cfg l score v
  rw [h2]; omega

theorem Pillar.retire_pop (cfg : Config) (pos : Pipe) (rest : List Pipe) (score : Int) (v : ℚ)
    (h : pos.x < ((-(Pillar.WIDTH cfg) : Int) : ℚ)) :
    score + 1 ≤ (Pillar.retire cfg (pos :: rest) score v).2.1 := by
  simp only [Pillar.retire, if_pos h]
  split
  · exact Pillar.retire_score_ge cfg rest (score + 1) _
  · exact Pillar.retire_score_ge cfg rest (score + 1) _

theorem Pillar.retire_all (cfg : Config) (l : List Pipe) :
    ∀ (score : Int) (v : ℚ), (∀ pos ∈ l, pos.x < ((-(Pillar.WIDTH cfg) : Int) : ℚ)) →
      (Pillar.retire cfg l score v).1 = [] := by
  induction l with
  | nil => intro score v _; rfl
  | cons p ps ih =>
    intro score v h
    have hp := h p (List.mem_cons_self _ _)
    have hps : ∀ pos ∈ ps, pos.x < ((-(Pillar.WIDTH cfg) : Int) : ℚ) :=
      fun pos hpos => h pos (List.mem_cons_of_mem _ hpos)
    simp only [Pillar.retire, if_pos hp]
    split
    · exact ih _ _ hps
    · exact ih _ _ hps

theorem tens_eq_div (score : Int) (k : Nat) (h : 0 ≤ score) :
    (tens score k : Int) = (score + k) / 10 - score / 10 := by
  induction k generalizing score with
  | zero => simp [tens_zero]
  | succ k ih =>
    rw [tens_succ]
    have ih1 := ih (score + 1) (by omega)
    have hmod : Int.tmod (score + 1) 10 = (score + 1) % 10 :=
      Int.tmod_eq_emod (by omega) (by omega)
    rw [hmod]
    push_cast
    rw [ih1]
    split <;> omega

/-- What a defined call of `Pillar::update` returns, in terms of the result
`r` of the retirement loop: `r`'s list is non-empty, score and `v` are `r`'s,
and the list is `r`'s, possibly with one pipe at `x = GAME_WIDTH` appended. -/
theorem Pillar.update_some (cfg : Config) (p p' : Pillar) (score score' d1 d2 d3 : Int)
    (h : Pillar.update cfg p score d1 d2 d3 = some (p', score')) :
    p.pipe_list ≠ [] ∧
    (Pillar.retire cfg (Pillar.move p.v p.pipe_list) score p.v).1 ≠ [] ∧
    score' = (Pillar.retire cfg (Pillar.move p.v p.pipe_list) score p.v).2.1 ∧
    p'.v = (Pillar.retire cfg (Pillar.move p.v p.pipe_list) score p.v).2.2 ∧
    (p'.pipe_list = (Pillar.retire cfg (Pillar.move p.v p.pipe_list) score p.v).1 ∨
      ∃ pipe : Pipe, pipe.x = (cfg.GAME_WIDTH : ℚ) ∧
        p'.pipe_list = (Pillar.retire cfg (Pillar.move p.v p.pipe_list) score p.v).1 ++ [pipe]) := by
  unfold Pillar.update at h
  by_cases hne : p.pipe_list = []
  · rw [if_pos hne] at h; cases h
  · rw [if_neg hne] at h
    simp only at h
    refine ⟨hne, ?_⟩
    cases hl : (Pillar.retire cfg (Pillar.move p.v p.pipe_list) score p.v).1.getLast? with
    | none =>
      rw [hl] at h; cases h
    | some back =>
      rw [hl] at h
      simp only at h
      have hr : (Pillar.retire cfg (Pillar.move p.v p.pipe_list) score p.v).1 ≠ [] := by
        intro h0; rw [h0] at hl; cases hl
      refine ⟨hr, ?_⟩
      split at h
      · obtain ⟨pipe, hx, hlist⟩ := Pillar.new_pillar_list cfg
          { p with pipe_list := (Pillar.retire cfg (Pillar.move p.v p.pipe_list) score p.v).1,
                   v := (Pillar.retire cfg (Pillar.move p.v p.pipe_list) score p.v).2.2 } d1 d2
        cases h
        refine ⟨rfl, ?_, Or.inr ⟨pipe, hx, ?_⟩⟩
        · simp only [Pillar.new_pillar_v]
        · simpa using hlist
      · cases h
        exact ⟨rfl, rfl, Or.inl rfl⟩

theorem Pillar.update_none_of_retire_nil (cfg : Config) (p : Pillar) (score d1 d2 d3 : Int)
    (h : (Pillar.retire cfg (Pillar.move p.v p.pipe_list) score p.v).1 = []) :
    Pillar.update cfg p score d1 d2 d3 = none := by
  unfold Pillar.update
  split
  · rfl
  · simp only [h, List.getLast?_nil]


theorem Pillar.Ramp.v_ge_one (cfg : Config) (s : Pillar × Int) (h : Pillar.Ramp cfg s) :
    1 ≤ s.1.v := by
  obtain ⟨_, h2, h3⟩ := h
  rw [h3]
  have : (0 : ℚ) ≤ ((s.2 / 10 : Int) : ℚ) := by
    exact_mod_cast Int.ediv_nonneg h2 (by norm_num)
  simp only [Pillar.INIT_V]
  linarith

theorem Pillar.move_mem (v : ℚ) (l : List Pipe) (pos : Pipe) (h : pos ∈ Pillar.move v l) :
    ∃ q ∈ l, pos.x = q.x - v := by
  unfold Pillar.move at h
  obtain ⟨q, hq, rfl⟩ := List.mem_map.mp h
  exact ⟨q, hq, rfl⟩

theorem Pillar.update_ramp (cfg : Config) (s s' : Pillar × Int) (d1 d2 d3 : Int)
    (hinv : Pillar.Ramp cfg s) (h : Pillar.update cfg s.1 s.2 d1 d2 d3 = some s') :
    Pillar.Ramp cfg s' ∧ s.2 ≤ s'.2 := by
  obtain ⟨p', score'⟩ := s'
  obtain ⟨_, _, hs, hv, hl⟩ := Pillar.update_some cfg s.1 p' s.2 score' d1 d2 d3 h
  obtain ⟨k, _, h1, h2, h3⟩ := Pillar.retire_spec cfg (Pillar.move s.1.v s.1.pipe_list) s.2 s.1.v
  have hv1 := Pillar.Ramp.v_ge_one cfg s hinv
  obtain ⟨hx, h0, hramp⟩ := hinv
  have hdrop : ∀ pos ∈ (Pillar.retire cfg (Pillar.move s.1.v s.1.pipe_list) s.2 s.1.v).1,
      pos.x ≤ (cfg.GAME_WIDTH : ℚ) := by
    intro pos hpos
    rw [h1] at hpos
    obtain ⟨q, hq, hqx⟩ := Pillar.move_mem _ _ _ (List.mem_of_mem_drop hpos)
    have := hx q hq
    linarith
  refine ⟨⟨?_, ?_, ?_⟩, ?_⟩
  · intro pos hpos
    simp only at hpos
    rcases hl with hl | ⟨pipe, hpx, hl⟩
    · rw [hl] at hpos; exact hdrop pos hpos
    · rw [hl] at hpos
      rcases List.mem_append.mp hpos with hp | hp
      · exact hdrop pos hp
      · rw [List.mem_singleton.mp hp, hpx]
  · simp only; rw [hs, h2]; omega
  · simp only
    rw [hv, hs, h3, h2, hramp]
    have ht := tens_eq_div s.2 k h0
    have : ((tens s.2 k : Int) : ℚ) = (((s.2 + k) / 10 - s.2 / 10 : Int) : ℚ) := by rw [ht]
    push_cast at this
    rw [this]
    ring
  · simp only; rw [hs, h2]; omega

theorem Pillar.run_append (cfg : Config) (l1 l2 : List PillarCall) :
    ∀ s : Pillar × Int, Pillar.run cfg s (l1 ++ l2) =
      (Pillar.run cfg s l1).bind (fun s1 => Pillar.run cfg s1 l2) := by
  induction l1 with
  | nil => intro s; rfl
  | cons c cs ih =>
    intro s
    cases c with
    | update d1 d2 d3 =>
      simp only [List.cons_append, Pillar.run]
      cases Pillar.update cfg s.1 s.2 d1 d2 d3 with
      | none => rfl
      | some s1 => exact ih s1
    | reset d1 d2 =>
      simp only [List.cons_append, Pillar.run]
      exact ih _


theorem Pillar.update_front (cfg : Config) (s : Pillar × Int) (f : Pipe) (rest : List Pipe)
    (d1 d2 d3 : Int) (hinv : Pillar.Ramp cfg s) (hl : s.1.pipe_list = f :: rest) :
    Pillar.update cfg s.1 s.2 d1 d2 d3 = none ∨
    ∃ s', Pillar.update cfg s.1 s.2 d1 d2 d3 = some s' ∧ Pillar.Ramp cfg s' ∧
      (s.2 + 1 ≤ s'.2 ∨
        (s'.2 = s.2 ∧ ∃ f' rest', s'.1.pipe_list = f' :: rest' ∧ f'.x = f.x - s.1.v ∧
          ((-(Pillar.WIDTH cfg) : Int) : ℚ) ≤ f.x - s.1.v)) := by
  cases hu : Pillar.update cfg s.1 s.2 d1 d2 d3 with
  | none => exact Or.inl rfl
  | some s' =>
    refine Or.inr ⟨s', rfl, (Pillar.update_ramp cfg s s' d1 d2 d3 hinv hu).1, ?_⟩
    obtain ⟨p', score'⟩ := s'
    obtain ⟨_, _, hs, _, hlist⟩ := Pillar.update_some cfg s.1 p' s.2 score' d1 d2 d3 hu
    have hm : Pillar.move s.1.v s.1.pipe_list
        = { f with x := f.x - s.1.v } :: Pillar.move s.1.v rest := by
      rw [hl]; rfl
    rw [hm] at hs hlist
    by_cases hpop : f.x - s.1.v < ((-(Pillar.WIDTH cfg) : Int) : ℚ)
    · left
      simp only
      rw [hs]
      exact Pillar.retire_pop cfg _ _ _ _ hpop
    · right
      rw [Pillar.retire_keep cfg _ _ _ _ hpop] at hs hlist
      refine ⟨hs, ?_⟩
      simp only at hlist
      rcases hlist with h | ⟨pipe, _, h⟩
      · exact ⟨_, _, h, rfl, not_lt.mp hpop⟩
      · exact ⟨_, _, by rw [h]; rfl, rfl, not_lt.mp hpop⟩

theorem Pillar.run_replicate_succ (cfg : Config) (s : Pillar × Int) (d1 d2 d3 : Int) (n : Nat) :
    Pillar.run cfg s (List.replicate (n + 1) (PillarCall.update d1 d2 d3)) =
      (Pillar.update cfg s.1 s.2 d1 d2 d3).bind
        (fun s1 => Pillar.run cfg s1 (List.replicate n (PillarCall.update d1 d2 d3))) := by
  rw [List.replicate_succ, Pillar.run]
  cases Pillar.update cfg s.1 s.2 d1 d2 d3 <;> rfl

theorem Pillar.run_score_grows (cfg : Config) (d1 d2 d3 : Int) :
    ∀ (m : Nat) (s : Pillar × Int) (f : Pipe) (rest : List Pipe),
      Pillar.Ramp cfg s → s.1.pipe_list = f :: rest → f.x + (Pillar.WIDTH cfg : ℚ) < m →
      ∃ n, Pillar.run cfg s (List.replicate n (PillarCall.update d1 d2 d3)) = none ∨
        ∃ s', Pillar.run cfg s (List.replicate n (PillarCall.update d1 d2 d3)) = some s' ∧
          Pillar.Ramp cfg s' ∧ s.2 + 1 ≤ s'.2 := by
  intro m
  induction m with
  | zero =>
    intro s f rest hinv hl hm
    have hv := Pillar.Ramp.v_ge_one cfg s hinv
    rcases Pillar.update_front cfg s f rest d1 d2 d3 hinv hl with hu | ⟨s', hu, hinv', h | h⟩
    · exact ⟨1, Or.inl (by rw [Pillar.run_replicate_succ, hu]; rfl)⟩
    · exact ⟨1, Or.inr ⟨s', by rw [Pillar.run_replicate_succ, hu]; rfl, hinv', h⟩⟩
    · obtain ⟨_, _, _, _, _, hge⟩ := h
      push_cast at hge hm
      linarith
  | succ m ih =>
    intro s f rest hinv hl hm
    have hv := Pillar.Ramp.v_ge_one cfg s hinv
    rcases Pillar.update_front cfg s f rest d1 d2 d3 hinv hl with hu | ⟨s', hu, hinv', h | h⟩
    · exact ⟨1, Or.inl (by rw [Pillar.run_replicate_succ, hu]; rfl)⟩
    · exact ⟨1, Or.inr ⟨s', by rw [Pillar.run_replicate_succ, hu]; rfl, hinv', h⟩⟩
    · obtain ⟨hsc, f', rest', hl', hfx, _⟩ := h
      have hm' : f'.x + (Pillar.WIDTH cfg : ℚ) < m := by
        rw [hfx]; push_cast at hm; linarith
      obtain ⟨n, hn⟩ := ih s' f' rest' hinv' hl' hm'
      refine ⟨n + 1, ?_⟩
      rw [Pillar.run_replicate_succ, hu]
      simp only [Option.bind]
      rcases hn with hn | ⟨s'', hn, hinv'', hsc''⟩
      · exact Or.inl hn
      · exact Or.inr ⟨s'', hn, hinv'', by omega⟩

theorem Pillar.run_score_reaches (cfg : Config) (d1 d2 d3 : Int) :
    ∀ (t : Nat) (s : Pillar × Int), Pillar.Ramp cfg s →
      ∃ n, Pillar.run cfg s (List.replicate n (PillarCall.update d1 d2 d3)) = none ∨
        ∃ s', Pillar.run cfg s (List.replicate n (PillarCall.update d1 d2 d3)) = some s' ∧
          Pillar.Ramp cfg s' ∧ s.2 + t ≤ s'.2 := by
  intro t
  induction t with
  | zero =>
    intro s hinv
    exact ⟨0, Or.inr ⟨s, rfl, hinv, by simp⟩⟩
  | succ t ih =>
    intro s hinv
    obtain ⟨n, hn⟩ := ih s hinv
    rcases hn with hn | ⟨s1, hn, hinv1, hsc1⟩
    · exact ⟨n, Or.inl hn⟩
    · cases hl : s1.1.pipe_list with
      | nil =>
        refine ⟨n + 1, Or.inl ?_⟩
        rw [List.replicate_add, Pillar.run_append, hn]
        simp only [Option.bind, List.replicate, Pillar.run, Pillar.update, hl, if_true]
      | cons f rest =>
        obtain ⟨m, hm⟩ := exists_nat_gt (f.x + (Pillar.WIDTH cfg : ℚ))
        obtain ⟨n2, hn2⟩ := Pillar.run_score_grows cfg d1 d2 d3 m s1 f rest hinv1 hl hm
        refine ⟨n + n2, ?_⟩
        rw [List.replicate_add, Pillar.run_append, hn]
        simp only [Option.bind]
        rcases hn2 with hn2 | ⟨s2, hn2, hinv2, hsc2⟩
        · exact Or.inl hn2
        · exact Or.inr ⟨s2, hn2, hinv2, by push_cast; omega⟩

theorem Pillar.update_fast_none (cfg : Config) (s : Pillar × Int) (d1 d2 d3 : Int)
    (hinv : Pillar.Ramp cfg s)
    (hv : ((cfg.GAME_WIDTH + Pillar.WIDTH cfg : Int) : ℚ) < s.1.v) :
    Pillar.update cfg s.1 s.2 d1 d2 d3 = none := by
  apply Pillar.update_none_of_retire_nil
  apply Pillar.retire_all
  intro pos hpos
  obtain ⟨q, hq, hqx⟩ := Pillar.move_mem _ _ _ hpos
  have := hinv.1 q hq
  push_cast at hv ⊢
  linarith


theorem Pillar.init_ramp (cfg : Config) (e1 e2 : Int) :
    Pillar.Ramp cfg (Pillar.init cfg e1 e2, 0) := by
  obtain ⟨pipe, hx, hl⟩ := Pillar.new_pillar_list cfg
    { pipe_list := [], v := Pillar.INIT_V, space := (Bird.SIZE cfg : ℚ) * (3 / 2) } e1 e2
  refine ⟨?_, le_refl _, ?_⟩
  · intro pos hpos
    simp only [Pillar.init] at hpos
    rw [hl] at hpos
    simp only [List.nil_append, List.mem_singleton] at hpos
    rw [hpos, hx]
  · simp [Pillar.init, Pillar.new_pillar_v]

/-- For every configuration and every choice of draws, some finite number of
`update()` calls on a fresh pillar (score 0) reaches a call that is
undefined: the speed ramp lets `v` exceed `GAME_WIDTH + WIDTH`, and the loop
then pops every pipe before `back()` is read. -/
theorem Pillar.update_eventually_undefined (cfg : Config) (e1 e2 d1 d2 d3 : Int) :
    ∃ n, Pillar.run cfg (Pillar.init cfg e1 e2, 0)
      (List.replicate n (PillarCall.update d1 d2 d3)) = none := by
  obtain ⟨n, hn⟩ := Pillar.run_score_reaches cfg d1 d2 d3
    (20 * ((cfg.GAME_WIDTH + Pillar.WIDTH cfg).toNat + 1)) _ (Pillar.init_ramp cfg e1 e2)
  rcases hn with hn | ⟨s', hn, hinv, hsc⟩
  · exact ⟨n, hn⟩
  · refine ⟨n + 1, ?_⟩
    rw [List.replicate_add, Pillar.run_append, hn]
    simp only [Option.bind, List.replicate, Pillar.run]
    rw [Pillar.update_fast_none cfg s' d1 d2 d3 hinv]
    rw [hinv.2.2]
    have h1 : cfg.GAME_WIDTH + Pillar.WIDTH cfg ≤ ((cfg.GAME_WIDTH + Pillar.WIDTH cfg).toNat : Int) :=
      Int.self_le_toNat _
    have h2 : 2 * (((cfg.GAME_WIDTH + Pillar.WIDTH cfg).toNat : Int) + 1) ≤ s'.2 / 10 := by
      push_cast at hsc
      omega
    have h1q : ((cfg.GAME_WIDTH + Pillar.WIDTH cfg : Int) : ℚ)
        ≤ (((cfg.GAME_WIDTH + Pillar.WIDTH cfg).toNat : Int) : ℚ) := by exact_mod_cast h1
    have h2q : (2 : ℚ) * ((((cfg.GAME_WIDTH + Pillar.WIDTH cfg).toNat : Int) : ℚ) + 1)
        ≤ ((s'.2 / 10 : Int) : ℚ) := by exact_mod_cast h2
    simp only [Pillar.INIT_V]
    linarith

/-- C1, evaluated where the code breaks it.  With `GAME_WIDTH = 10`,
`GAME_HEIGHT = 8` (so `WIDTH = 1`, draws in `[2, 4]`) and every draw equal to 4:
after 295 calls of `update()` on a fresh pillar the list holds pipes at
`x = -1` and `x = 10`, with `v = 11.5` and score 210; in the next call both
pipes move below `-WIDTH`, the loop pops both, and `back()` is read on the
empty list: the call is undefined. -/
theorem Pillar.run_empties_list :
    PillarCall.inRange ⟨10, 8, 60⟩ (PillarCall.update 4 4 4) ∧
    Pillar.run ⟨10, 8, 60⟩ (Pillar.init ⟨10, 8, 60⟩ 4 4, 0)
        (List.replicate 295 (PillarCall.update 4 4 4)) =
      some ({ pipe_list := [{ x := -1, y := 4 }, { x := 10, y := 4 }], v := 23 / 2, space := 2 },
            210) ∧
    Pillar.retire ⟨10, 8, 60⟩
        (Pillar.move (23 / 2) [{ x := -1, y := 4 }, { x := 10, y := 4 }]) 210 (23 / 2) =
      ([], 212, 23 / 2) ∧
    Pillar.run ⟨10, 8, 60⟩ (Pillar.init ⟨10, 8, 60⟩ 4 4, 0)
        (List.replicate 296 (PillarCall.update 4 4 4)) = none := by
  refine ⟨?_, ?_, ?_, ?_⟩
  · simp only [PillarCall.inRange, Pillar.MIN_HEIGHT, Pillar.MAX_HEIGHT]; decide
  · decide!
  · decide!
  · decide!

/-! ## New pipes -/

/-- C13. `Pillar::new_pillar` appends exactly one pipe at the back and leaves
the pipes already there, `v` and `space` as they were.  The new pipe is at
`x = GAME_WIDTH`; its `y` is `height - MAX_HEIGHT` when the first draw is odd
and `GAME_HEIGHT - height` when it is even; for a height in
`[MIN_HEIGHT, MAX_HEIGHT]` the first lies in `[MIN_HEIGHT - MAX_HEIGHT, 0]` and
the second in `[GAME_HEIGHT - MAX_HEIGHT, GAME_HEIGHT - MIN_HEIGHT]`. -/
theorem Pillar.new_pillar_spec (cfg : Config) (p : Pillar) (d1 d2 : Int) :
    ∃ pipe : Pipe,
      (Pillar.new_pillar cfg p d1 d2).pipe_list = p.pipe_list ++ [pipe] ∧
      (Pillar.new_pillar cfg p d1 d2).v = p.v ∧
      (Pillar.new_pillar cfg p d1 d2).space = p.space ∧
      pipe.x = (cfg.GAME_WIDTH : ℚ) ∧
      (Int.tmod d1 2 ≠ 0 → pipe.y = ((d2 - Pillar.MAX_HEIGHT cfg : Int) : ℚ)) ∧
      (Int.tmod d1 2 = 0 → pipe.y = ((cfg.GAME_HEIGHT - d2 : Int) : ℚ)) ∧
      (Pillar.MIN_HEIGHT cfg ≤ d2 → d2 ≤ Pillar.MAX_HEIGHT cfg →
        (Int.tmod d1 2 ≠ 0 →
          ((Pillar.MIN_HEIGHT cfg - Pillar.MAX_HEIGHT cfg : Int) : ℚ) ≤ pipe.y ∧ pipe.y ≤ 0) ∧
        (Int.tmod d1 2 = 0 →
          ((cfg.GAME_HEIGHT - Pillar.MAX_HEIGHT cfg : Int) : ℚ) ≤ pipe.y ∧
          pipe.y ≤ ((cfg.GAME_HEIGHT - Pillar.MIN_HEIGHT cfg : Int) : ℚ))) := by
  by_cases hc : Int.tmod d1 2 ≠ 0
  · refine ⟨{ x := (cfg.GAME_WIDTH : ℚ), y := ((d2 - Pillar.MAX_HEIGHT cfg : Int) : ℚ) },
      ?_, Pillar.new_pillar_v cfg p d1 d2, Pillar.new_pillar_space cfg p d1 d2, rfl,
      fun _ => rfl, fun h => absurd h hc, ?_⟩
    · unfold Pillar.new_pillar; simp only; rw [if_pos hc]
    · intro hlo hhi
      refine ⟨fun _ => ⟨?_, ?_⟩, fun h => absurd h hc⟩
      · simp only; exact_mod_cast (by omega : Pillar.MIN_HEIGHT cfg - Pillar.MAX_HEIGHT cfg
          ≤ d2 - Pillar.MAX_HEIGHT cfg)
      · simp only; exact_mod_cast (by omega : d2 - Pillar.MAX_HEIGHT cfg ≤ 0)
  · have hc0 : Int.tmod d1 2 = 0 := not_not.mp hc
    refine ⟨{ x := (cfg.GAME_WIDTH : ℚ), y := ((cfg.GAME_HEIGHT - d2 : Int) : ℚ) },
      ?_, Pillar.new_pillar_v cfg p d1 d2, Pillar.new_pillar_space cfg p d1 d2, rfl,
      fun h => absurd hc0 h, fun _ => rfl, ?_⟩
    · unfold Pillar.new_pillar; simp only; rw [if_neg hc]
    · intro hlo hhi
      refine ⟨fun h => absurd hc0 h, fun _ => ⟨?_, ?_⟩⟩
      · simp only; exact_mod_cast (by omega : cfg.GAME_HEIGHT - Pillar.MAX_HEIGHT cfg
          ≤ cfg.GAME_HEIGHT - d2)
      · simp only; exact_mod_cast (by omega : cfg.GAME_HEIGHT - d2
          ≤ cfg.GAME_HEIGHT - Pillar.MIN_HEIGHT cfg)

/-- Witness for C13: `GAME_WIDTH = 400`, `GAME_HEIGHT = 600`, an odd first draw
201 and height 250 appended to a list of one pipe: the new pipe has
`y = 250 - 300 = -50`. -/
theorem Pillar.new_pillar_spec_witness :
    ∃ pipe : Pipe,
      (Pillar.new_pillar ⟨400, 600, 60⟩
        { pipe_list := [{ x := 100, y := 300 }], v := 1, space := 60 } 201 250).pipe_list
        = [{ x := 100, y := 300 }, pipe] ∧
      pipe.x = 400 ∧ pipe.y = -50 := by
  obtain ⟨pipe, h1, _, _, h4, h5, _, _⟩ := Pillar.new_pillar_spec ⟨400, 600, 60⟩
    { pipe_list := [{ x := 100, y := 300 }], v := 1, space := 60 } 201 250
  refine ⟨pipe, h1, ?_, ?_⟩
  · rw [h4]; norm_num
  · rw [h5 (by decide)]; norm_num [Pillar.MAX_HEIGHT, Int.tdiv]

/-- C19. For a height drawn in `[MIN_HEIGHT, MAX_HEIGHT]`, the pipe made by
`new_pillar` has a vertical range `[y, y + MAX_HEIGHT]` that reaches an edge
of the world: on the odd branch it starts at or above the top (`y ≤ 0`), on
the even branch it ends at or below the bottom
(`y + MAX_HEIGHT ≥ GAME_HEIGHT`). -/
theorem Pillar.new_pillar_reaches_edge (cfg : Config) (p : Pillar) (d1 d2 : Int)
    (_hlo : Pillar.MIN_HEIGHT cfg ≤ d2) (hhi : d2 ≤ Pillar.MAX_HEIGHT cfg) :
    ∃ pipe : Pipe,
      (Pillar.new_pillar cfg p d1 d2).pipe_list = p.pipe_list ++ [pipe] ∧
      ((Int.tmod d1 2 ≠ 0 ∧ pipe.y ≤ 0) ∨
       (Int.tmod d1 2 = 0 ∧ (cfg.GAME_HEIGHT : ℚ) ≤ pipe.y + (Pillar.MAX_HEIGHT cfg : ℚ))) := by
  by_cases hc : Int.tmod d1 2 ≠ 0
  · refine ⟨{ x := (cfg.GAME_WIDTH : ℚ), y := ((d2 - Pillar.MAX_HEIGHT cfg : Int) : ℚ) },
      ?_, Or.inl ⟨hc, ?_⟩⟩
    · unfold Pillar.new_pillar; simp only; rw [if_pos hc]
    · simp only; exact_mod_cast (by omega : d2 - Pillar.MAX_HEIGHT cfg ≤ 0)
  · refine ⟨{ x := (cfg.GAME_WIDTH : ℚ), y := ((cfg.GAME_HEIGHT - d2 : Int) : ℚ) },
      ?_, Or.inr ⟨not_not.mp hc, ?_⟩⟩
    · unfold Pillar.new_pillar; simp only; rw [if_neg hc]
    · simp only
      have h : cfg.GAME_HEIGHT ≤ (cfg.GAME_HEIGHT - d2) + Pillar.MAX_HEIGHT cfg := by omega
      exact_mod_cast h

/-- Witness for C19: `GAME_WIDTH = 400`, `GAME_HEIGHT = 600`, an even first draw
200 and height 150: the pipe has `y = 450`, and `450 + 300 ≥ 600`. -/
theorem Pillar.new_pillar_reaches_edge_witness :
    ∃ pipe : Pipe,
      (Pillar.new_pillar ⟨400, 600, 60⟩
        { pipe_list := [], v := 1, space := 60 } 200 150).pipe_list = [] ++ [pipe] ∧
      ((Int.tmod 200 2 ≠ 0 ∧ pipe.y ≤ 0) ∨
       (Int.tmod 200 2 = 0 ∧
        ((600 : Int) : ℚ) ≤ pipe.y + (Pillar.MAX_HEIGHT ⟨400, 600, 60⟩ : ℚ))) :=
  Pillar.new_pillar_reaches_edge ⟨400, 600, 60⟩ { pipe_list := [], v := 1, space := 60 } 200 150
    (by decide) (by decide)

/-! ## The animation index -/

theorem Bird.update_index_index (b : Bird) :
    (Bird.update_index b).index = if b.index + 1 = 4 then 0 else b.index + 1 := by
  unfold Bird.update_index Bird.ACTION_NUM; simp only; split <;> rfl

theorem Bird.update_index_count (b : Bird) : (Bird.update_index b).count = b.count := by
  unfold Bird.update_index; simp only; split <;> rfl

theorem Bird.update_count (cfg : Config) (b : Bird) :
    (Bird.update cfg b).count = toChar (b.count + 1) := by
  unfold Bird.update
  simp only
  split
  · rw [Bird.update_index_count]
  · rfl

theorem Bird.update_index_eq (cfg : Config) (b : Bird) :
    (Bird.update cfg b).index =
      if Int.tmod (toChar (b.count + 1)) (Bird.IDLE_SPACE cfg) = 0
      then (if b.index + 1 = 4 then 0 else b.index + 1) else b.index := by
  unfold Bird.update
  simp only
  split
  · rw [Bird.update_index_index]
  · rfl

theorem succ_ediv_of_dvd (n i : Int) (hi : 0 < i) (h : (n + 1) % i = 0) :
    (n + 1) / i = n / i + 1 := by
  have h1 : i * ((n + 1) / i) = n + 1 := Int.mul_ediv_cancel' (Int.dvd_of_emod_eq_zero h)
  have h2 := (Int.ediv_emod_unique (a := n) (r := i - 1) (q := (n + 1) / i - 1) hi).mpr
    ⟨by rw [mul_sub, h1]; ring, by omega, by omega⟩
  rw [h2.1]; ring

theorem succ_ediv_of_not_dvd (n i : Int) (hi : 0 < i) (h : (n + 1) % i ≠ 0) :
    (n + 1) / i = n / i := by
  have h1 : n % i + i * (n / i) = n := Int.emod_add_ediv n i
  have h2 : 0 ≤ n % i := Int.emod_nonneg n (by omega)
  have h3 : n % i < i := Int.emod_lt_of_pos n hi
  have h4 : n % i + 1 ≠ i := by
    intro hc
    apply h
    have : n + 1 = i * (n / i + 1) := by rw [mul_add, mul_one]; omega
    rw [this]
    exact Int.mul_emod_right _ _
  exact ((Int.ediv_emod_unique (a := n + 1) (r := n % i + 1) (q := n / i) hi).mpr
    ⟨by omega, by omega, by omega⟩).1

/-- Up to the 127th call the frame counter has not wrapped, and the index is
`⌊n / IDLE_SPACE⌋ mod 4`, as intended. -/
theorem Bird.update_index_before_wrap (cfg : Config) (hI : 0 < Bird.IDLE_SPACE cfg) :
    ∀ n : Nat, n ≤ 127 →
      ((Bird.update cfg)^[n] (Bird.init cfg)).count = (n : Int) ∧
      ((Bird.update cfg)^[n] (Bird.init cfg)).index = ((n : Int) / Bird.IDLE_SPACE cfg) % 4 := by
  intro n
  induction n with
  | zero => intro _; simp [Bird.init]
  | succ n ih =>
    intro hn
    obtain ⟨hc, hidx⟩ := ih (by omega)
    have htc : toChar ((n : Int) + 1) = (n : Int) + 1 := by unfold toChar; omega
    rw [Function.iterate_succ_apply']
    refine ⟨?_, ?_⟩
    · rw [Bird.update_count, hc, htc]; push_cast; rfl
    · rw [Bird.update_index_eq, hc, htc, hidx]
      have hmod : Int.tmod ((n : Int) + 1) (Bird.IDLE_SPACE cfg)
          = ((n : Int) + 1) % Bird.IDLE_SPACE cfg :=
        Int.tmod_eq_emod (by omega) (by omega)
      rw [hmod]
      push_cast
      by_cases hd : ((n : Int) + 1) % Bird.IDLE_SPACE cfg = 0
      · rw [if_pos hd, succ_ediv_of_dvd _ _ hI hd]
        split <;> omega
      · rw [if_neg hd, succ_ediv_of_not_dvd _ _ hI hd]

/-- C11, evaluated where the code breaks it.  With `GAME_FPS = 60`
(`IDLE_SPACE = 10`): the `char` counter is 127 after 127 calls and wraps to
-128 on the 128th, so after 130 calls it is -126, the 130th call does not
advance the index, and the index is 0 (12 advances), not
`⌊130 / 10⌋ mod 4 = 1`.  The next advance comes on call 136 (counter -120),
which is not a multiple of `IDLE_SPACE`. -/
theorem Bird.update_index_after_wrap :
    Bird.IDLE_SPACE ⟨400, 600, 60⟩ = 10 ∧
    ((Bird.update ⟨400, 600, 60⟩)^[127] (Bird.init ⟨400, 600, 60⟩)).count = 127 ∧
    ((Bird.update ⟨400, 600, 60⟩)^[128] (Bird.init ⟨400, 600, 60⟩)).count = -128 ∧
    ((Bird.update ⟨400, 600, 60⟩)^[130] (Bird.init ⟨400, 600, 60⟩)).count = -126 ∧
    ((Bird.update ⟨400, 600, 60⟩)^[130] (Bird.init ⟨400, 600, 60⟩)).index = 0 ∧
    ((130 : Int) / Bird.IDLE_SPACE ⟨400, 600, 60⟩) % 4 = 1 ∧
    ((Bird.update ⟨400, 600, 60⟩)^[135] (Bird.init ⟨400, 600, 60⟩)).index = 0 ∧
    ((Bird.update ⟨400, 600, 60⟩)^[136] (Bird.init ⟨400, 600, 60⟩)).index = 1 := by
  refine ⟨by decide, ?_, ?_, ?_, ?_, by decide, ?_, ?_⟩ <;> decide!

/-! ## Order of the pipes and the speed -/

theorem Pillar.move_pairwise (v : ℚ) (l : List Pipe)
    (h : l.Pairwise (fun a b => a.x < b.x)) :
    (Pillar.move v l).Pairwise (fun a b => a.x < b.x) := by
  unfold Pillar.move
  rw [List.pairwise_map]
  exact h.imp (fun hab => by simp only; linarith)

theorem Pillar.retire_v_ge (cfg : Config) (l : List Pipe) (score : Int) (v : ℚ) :
    v ≤ (Pillar.retire cfg l score v).2.2 := by
  obtain ⟨k, _, _, _, h3⟩ := Pillar.retire_spec cfg l score v
  rw [h3]
  have : (0 : ℚ) ≤ (tens score k : ℚ) := Nat.cast_nonneg _
  linarith

theorem Pillar.update_ordered (cfg : Config) (p p' : Pillar) (score score' d1 d2 d3 : Int)
    (hord : Pillar.Ordered cfg p)
    (h : Pillar.update cfg p score d1 d2 d3 = some (p', score')) :
    Pillar.Ordered cfg p' := by
  obtain ⟨_, _, _, hv, hl⟩ := Pillar.update_some cfg p p' score score' d1 d2 d3 h
  obtain ⟨k, _, h1, _, _⟩ := Pillar.retire_spec cfg (Pillar.move p.v p.pipe_list) score p.v
  obtain ⟨hv1, hx, hpw⟩ := hord
  have hvpos : (0 : ℚ) < p.v := by
    have : (0 : ℚ) < Pillar.INIT_V := by norm_num [Pillar.INIT_V]
    linarith
  have hkept_lt : ∀ pos ∈ (Pillar.retire cfg (Pillar.move p.v p.pipe_list) score p.v).1,
      pos.x < (cfg.GAME_WIDTH : ℚ) := by
    intro pos hpos
    rw [h1] at hpos
    obtain ⟨q, hq, hqx⟩ := Pillar.move_mem _ _ _ (List.mem_of_mem_drop hpos)
    have := hx q hq
    linarith
  have hkept_pw : (Pillar.retire cfg (Pillar.move p.v p.pipe_list) score p.v).1.Pairwise
      (fun a b => a.x < b.x) := by
    rw [h1]
    exact (Pillar.move_pairwise p.v p.pipe_list hpw).sublist (List.drop_sublist _ _)
  refine ⟨?_, ?_, ?_⟩
  · rw [hv]
    exact le_trans hv1 (Pillar.retire_v_ge cfg _ _ _)
  · intro pos hpos
    rcases hl with hl | ⟨pipe, hpx, hl⟩
    · rw [hl] at hpos; exact le_of_lt (hkept_lt pos hpos)
    · rw [hl] at hpos
      rcases List.mem_append.mp hpos with hp | hp
      · exact le_of_lt (hkept_lt pos hp)
      · rw [List.mem_singleton.mp hp, hpx]
  · rcases hl with hl | ⟨pipe, hpx, hl⟩
    · rw [hl]; exact hkept_pw
    · rw [hl, List.pairwise_append]
      refine ⟨hkept_pw, List.pairwise_singleton _ _, ?_⟩
      intro a ha b hb
      rw [List.mem_singleton.mp hb, hpx]
      exact hkept_lt a ha

theorem Pillar.reset_ordered (cfg : Config) (p : Pillar) (d1 d2 : Int) :
    Pillar.Ordered cfg (Pillar.reset cfg p d1 d2) := by
  obtain ⟨pipe, hx, hl⟩ := Pillar.new_pillar_list cfg
    { p with v := Pillar.INIT_V, pipe_list := [] } d1 d2
  have hl' : (Pillar.reset cfg p d1 d2).pipe_list = [pipe] := by
    simpa [Pillar.reset] using hl
  refine ⟨?_, ?_, ?_⟩
  · simp [Pillar.reset, Pillar.new_pillar_v]
  · intro pos hpos
    rw [hl'] at hpos
    rw [List.mem_singleton.mp hpos, hx]
  · rw [hl']; exact List.pairwise_singleton _ _

theorem Pillar.init_ordered (cfg : Config) (e1 e2 : Int) :
    Pillar.Ordered cfg (Pillar.init cfg e1 e2) := by
  obtain ⟨pipe, hx, hl⟩ := Pillar.new_pillar_list cfg
    { pipe_list := [], v := Pillar.INIT_V, space := (Bird.SIZE cfg : ℚ) * (3 / 2) } e1 e2
  have hl' : (Pillar.init cfg e1 e2).pipe_list = [pipe] := by
    simpa [Pillar.init] using hl
  refine ⟨?_, ?_, ?_⟩
  · simp [Pillar.init, Pillar.new_pillar_v]
  · intro pos hpos
    rw [hl'] at hpos
    rw [List.mem_singleton.mp hpos, hx]
  · rw [hl']; exact List.pairwise_singleton _ _

theorem Pillar.run_ordered (cfg : Config) (calls : List PillarCall) :
    ∀ s s' : Pillar × Int, Pillar.Ordered cfg s.1 → Pillar.run cfg s calls = some s' →
      Pillar.Ordered cfg s'.1 := by
  induction calls with
  | nil =>
    intro s s' hord h
    simp only [Pillar.run, Option.some.injEq] at h
    rw [← h]; exact hord
  | cons c cs ih =>
    intro s s' hord h
    cases c with
    | update d1 d2 d3 =>
      simp only [Pillar.run] at h
      cases hu : Pillar.update cfg s.1 s.2 d1 d2 d3 with
      | none => rw [hu] at h; cases h
      | some s1 =>
        rw [hu] at h
        exact ih s1 s' (Pillar.update_ordered cfg s.1 s1.1 s.2 s1.2 d1 d2 d3 hord hu) h
    | reset d1 d2 =>
      simp only [Pillar.run] at h
      exact ih _ s' (Pillar.reset_ordered cfg s.1 d1 d2) h

/-- C12. In every state reached from a fresh pillar by calls of `update()`
and `reset()` (any draws, any starting score), the pipes are strictly
increasing in `x` from front to back: all pipes move left by the same
`v ≥ INIT_V > 0`, and a pipe is only ever appended at the back, at
`x = GAME_WIDTH`. -/
theorem Pillar.run_strictly_ordered (cfg : Config) (e1 e2 score : Int)
    (calls : List PillarCall) (s : Pillar × Int)
    (h : Pillar.run cfg (Pillar.init cfg e1 e2, score) calls = some s) :
    s.1.pipe_list.Pairwise (fun a b => a.x < b.x) :=
  (Pillar.run_ordered cfg calls _ s (Pillar.init_ordered cfg e1 e2) h).2.2

/-- Witness for C12: `GAME_WIDTH = 10`, `GAME_HEIGHT = 8`, four calls of
`update()`, a `reset()` and four more calls of `update()`; the list reached
is `[x = 6, x = 10]`. -/
theorem Pillar.run_strictly_ordered_witness :
    Pillar.run ⟨10, 8, 60⟩ (Pillar.init ⟨10, 8, 60⟩ 4 4, 0)
      (List.replicate 4 (PillarCall.update 4 4 4) ++ PillarCall.reset 3 3 ::
        List.replicate 4 (PillarCall.update 4 4 4))
      = some ({ pipe_list := [{ x := 6, y := -1 }, { x := 10, y := 4 }], v := 1, space := 2 }, 0) ∧
    ([{ x := 6, y := -1 }, { x := 10, y := 4 }] : List Pipe).Pairwise (fun a b => a.x < b.x) :=
  ⟨by decide!, Pillar.run_strictly_ordered ⟨10, 8, 60⟩ 4 4 0
    (List.replicate 4 (PillarCall.update 4 4 4) ++ PillarCall.reset 3 3 ::
      List.replicate 4 (PillarCall.update 4 4 4))
    ({ pipe_list := [{ x := 6, y := -1 }, { x := 10, y := 4 }], v := 1, space := 2 }, 0)
    (by decide!)⟩

/-- C15. In every state reached from a fresh pillar by calls of `update()`
and `reset()`, `v` is at least `INIT_V`; and a defined call of `update()`,
in any state, never decreases `v`. -/
theorem Pillar.speed_bounds (cfg : Config) (e1 e2 score0 : Int)
    (calls : List PillarCall) (s : Pillar × Int)
    (p p' : Pillar) (score score' d1 d2 d3 : Int)
    (hrun : Pillar.run cfg (Pillar.init cfg e1 e2, score0) calls = some s)
    (hupd : Pillar.update cfg p score d1 d2 d3 = some (p', score')) :
    Pillar.INIT_V ≤ s.1.v ∧ p.v ≤ p'.v := by
  refine ⟨(Pillar.run_ordered cfg calls _ s (Pillar.init_ordered cfg e1 e2) hrun).1, ?_⟩
  obtain ⟨_, _, _, hv, _⟩ := Pillar.update_some cfg p p' score score' d1 d2 d3 hupd
  rw [hv]
  exact Pillar.retire_v_ge cfg _ _ _

/-- Witness for C15: `GAME_WIDTH = 10`, `GAME_HEIGHT = 8`; the state reached
after three calls of `update()`, and the call of `update()` at score 9 that
retires a pipe and raises `v` from 1 to 1.5. -/
theorem Pillar.speed_bounds_witness :
    Pillar.INIT_V ≤ (1 : ℚ) ∧ (1 : ℚ) ≤ 3 / 2 :=
  Pillar.speed_bounds ⟨10, 8, 60⟩ 4 4 0 (List.replicate 3 (PillarCall.update 4 4 4))
    ({ pipe_list := [{ x := 7, y := 4 }, { x := 10, y := 4 }], v := 1, space := 2 }, 0)
    { pipe_list := [{ x := -1, y := 4 }, { x := 10, y := 4 }], v := 1, space := 2 }
    { pipe_list := [{ x := 9, y := 4 }], v := 3 / 2, space := 2 }
    9 10 4 4 4 (by decide!) (by decide!)

/-! ## What one call of `update` does to the list -/

theorem Pillar.move_drop (v : ℚ) (l : List Pipe) (k : Nat) :
    (Pillar.move v l).drop k = (l.drop k).map (fun pos => { x := pos.x - v, y := pos.y }) := by
  unfold Pillar.move
  rw [List.map_drop]

theorem Pillar.update_of_last (cfg : Config) (p : Pillar) (score d1 d2 d3 : Int) (back : Pipe)
    (hne : p.pipe_list ≠ [])
    (hlast : (Pillar.retire cfg (Pillar.move p.v p.pipe_list) score p.v).1.getLast? = some back) :
    Pillar.update cfg p score d1 d2 d3 =
      if back.x < ((cfg.GAME_WIDTH - Pillar.WIDTH cfg : Int) : ℚ) - p.space then
        some ({ Pillar.new_pillar cfg
                  { p with
                    pipe_list := (Pillar.retire cfg (Pillar.move p.v p.pipe_list) score p.v).1,
                    v := (Pillar.retire cfg (Pillar.move p.v p.pipe_list) score p.v).2.2 }
                  d1 d2 with
                space := ((d3 : ℚ) / (Pillar.MAX_HEIGHT cfg : ℚ)) * 2 * (Bird.SIZE cfg : ℚ) },
              (Pillar.retire cfg (Pillar.move p.v p.pipe_list) score p.v).2.1)
      else
        some ({ p with
                pipe_list := (Pillar.retire cfg (Pillar.move p.v p.pipe_list) score p.v).1,
                v := (Pillar.retire cfg (Pillar.move p.v p.pipe_list) score p.v).2.2 },
              (Pillar.retire cfg (Pillar.move p.v p.pipe_list) score p.v).2.1) := by
  unfold Pillar.update
  rw [if_neg hne]
  simp only
  rw [hlast]

/-- C14. In a call of `Pillar::update` on a non-empty list with speed `v`, let
`k` be the number of pipes the loop pops.  If `k` is the whole list the call
is undefined.  Otherwise the kept pipes are the prior list without its first
`k` pipes, each with `x` lowered by exactly `v` and `y` unchanged; the call
returns that list with exactly one new pipe (at `x = GAME_WIDTH`) appended
when the last kept pipe has `x < GAME_WIDTH - WIDTH - space`, and that list
as it is otherwise. -/
theorem Pillar.update_frame (cfg : Config) (p : Pillar) (score d1 d2 d3 : Int)
    (hne : p.pipe_list ≠ []) :
    ∃ k : Nat, k ≤ p.pipe_list.length ∧
      (Pillar.retire cfg (Pillar.move p.v p.pipe_list) score p.v).1
        = (p.pipe_list.drop k).map (fun pos => { x := pos.x - p.v, y := pos.y }) ∧
      (k = p.pipe_list.length → Pillar.update cfg p score d1 d2 d3 = none) ∧
      (k < p.pipe_list.length →
        ∃ back : Pipe,
          ((p.pipe_list.drop k).map
            (fun pos => ({ x := pos.x - p.v, y := pos.y } : Pipe))).getLast? = some back ∧
          (back.x < ((cfg.GAME_WIDTH - Pillar.WIDTH cfg : Int) : ℚ) - p.space →
            ∃ (p' : Pillar) (score' : Int) (pipe : Pipe),
              Pillar.update cfg p score d1 d2 d3 = some (p', score') ∧
              pipe.x = (cfg.GAME_WIDTH : ℚ) ∧
              p'.pipe_list = (p.pipe_list.drop k).map
                (fun pos => { x := pos.x - p.v, y := pos.y }) ++ [pipe]) ∧
          (¬ back.x < ((cfg.GAME_WIDTH - Pillar.WIDTH cfg : Int) : ℚ) - p.space →
            ∃ (p' : Pillar) (score' : Int),
              Pillar.update cfg p score d1 d2 d3 = some (p', score') ∧
              p'.pipe_list = (p.pipe_list.drop k).map
                (fun pos => { x := pos.x - p.v, y := pos.y }))) := by
  obtain ⟨k, hk, h1, _, _⟩ := Pillar.retire_spec cfg (Pillar.move p.v p.pipe_list) score p.v
  rw [Pillar.move_length] at hk
  rw [Pillar.move_drop] at h1
  refine ⟨k, hk, h1, ?_, ?_⟩
  · intro hkl
    apply Pillar.update_none_of_retire_nil
    rw [h1, List.drop_of_length_le (by omega)]
    rfl
  · intro hkl
    have hne2 : (p.pipe_list.drop k).map
        (fun pos => ({ x := pos.x - p.v, y := pos.y } : Pipe)) ≠ [] := by
      intro h0
      have := congrArg List.length h0
      simp only [List.length_map, List.length_drop, List.length_nil] at this
      omega
    have hlast := List.getLast?_eq_getLast _ hne2
    have hlast' : (Pillar.retire cfg (Pillar.move p.v p.pipe_list) score p.v).1.getLast?
        = some (((p.pipe_list.drop k).map
            (fun pos => ({ x := pos.x - p.v, y := pos.y } : Pipe))).getLast hne2) := by
      rw [h1]; exact hlast
    have hupd := Pillar.update_of_last cfg p score d1 d2 d3 _ hne hlast'
    refine ⟨_, hlast, ?_, ?_⟩
    · intro hlt
      rw [if_pos hlt] at hupd
      obtain ⟨pipe, hx, hl⟩ := Pillar.new_pillar_list cfg
        { p with pipe_list := (Pillar.retire cfg (Pillar.move p.v p.pipe_list) score p.v).1,
                 v := (Pillar.retire cfg (Pillar.move p.v p.pipe_list) score p.v).2.2 } d1 d2
      refine ⟨_, _, pipe, hupd, hx, ?_⟩
      simp only
      rw [hl, h1]
    · intro hlt
      rw [if_neg hlt] at hupd
      exact ⟨_, _, hupd, h1⟩

/-- Witness for C14: `GAME_WIDTH = 10`, `GAME_HEIGHT = 8`, pipes at `x = -1` and
`x = 7`, `v = 1`, `space = 2`: the first pipe is popped, the second is kept
at `x = 6`, and since `6 < 10 - 1 - 2` one pipe is appended at `x = 10`. -/
theorem Pillar.update_frame_witness :
    ∃ (p' : Pillar) (score' : Int) (pipe : Pipe),
      Pillar.update ⟨10, 8, 60⟩
        { pipe_list := [{ x := -1, y := 4 }, { x := 7, y := 3 }], v := 1, space := 2 }
        0 4 4 4 = some (p', score') ∧
      pipe.x = 10 ∧ p'.pipe_list = [{ x := 6, y := 3 }, pipe] := by
  obtain ⟨k, _, hk, _, hsome⟩ := Pillar.update_frame ⟨10, 8, 60⟩
    { pipe_list := [{ x := -1, y := 4 }, { x := 7, y := 3 }], v := 1, space := 2 }
    0 4 4 4 (List.cons_ne_nil _ _)
  have hr : (Pillar.retire ⟨10, 8, 60⟩
      (Pillar.move 1 [{ x := -1, y := 4 }, { x := 7, y := 3 }]) 0 1).1
      = [{ x := 6, y := 3 }] := by decide!
  simp only at hk hsome
  rw [hr] at hk
  have hk1 : k = 1 := by
    match k, hk with
    | 0, hk => simp at hk
    | 1, _ => rfl
    | (n + 2), hk => simp at hk
  subst hk1
  obtain ⟨back, hback, hspawn, _⟩ := hsome (by simp)
  have hb : back = { x := 6, y := 3 } := by
    have h6 : ((7 : ℚ) - 1) = 6 := by norm_num
    simp only [List.drop_succ_cons, List.drop_zero, List.map_cons, List.map_nil,
      List.getLast?_singleton, Option.some.injEq, h6] at hback
    exact hback.symm
  obtain ⟨p', score', pipe, hu, hx, hl⟩ := hspawn (by rw [hb]; decide!)
  refine ⟨p', score', pipe, hu, ?_, ?_⟩
  · rw [hx]; norm_num
  · rw [hl]
    have h6 : ((7 : ℚ) - 1) = 6 := by norm_num
    simp [h6]

/-! ## Off-screen pipes and the back pipe -/

theorem Pillar.retire_ge (cfg : Config) (l : List Pipe) :
    ∀ (score : Int) (v : ℚ), l.Pairwise (fun a b => a.x < b.x) →
      ∀ q ∈ (Pillar.retire cfg l score v).1, ((-(Pillar.WIDTH cfg) : Int) : ℚ) ≤ q.x := by
  induction l with
  | nil => intro score v _ q hq; simp [Pillar.retire] at hq
  | cons p ps ih =>
    intro score v hpw q hq
    rw [List.pairwise_cons] at hpw
    by_cases hp : p.x < ((-(Pillar.WIDTH cfg) : Int) : ℚ)
    · simp only [Pillar.retire, if_pos hp] at hq
      split at hq
      · exact ih _ _ hpw.2 q hq
      · exact ih _ _ hpw.2 q hq
    · rw [Pillar.retire_keep cfg p ps score v hp] at hq
      rcases List.mem_cons.mp hq with h | h
      · rw [h]; exact not_lt.mp hp
      · exact le_trans (not_lt.mp hp) (le_of_lt (hpw.1 q h))

/-- C18. After a defined call of `Pillar::update` on a list that is strictly
increasing in `x` from front to back, every pipe kept from the prior list has
`x ≥ -WIDTH`: each pipe of the result either has `x ≥ -WIDTH` or is the
pipe just appended at `x = GAME_WIDTH`; so with `GAME_WIDTH ≥ 0` every pipe of
the result has `x ≥ -WIDTH`. -/
theorem Pillar.update_no_offscreen (cfg : Config) (p p' : Pillar) (score score' d1 d2 d3 : Int)
    (hpw : p.pipe_list.Pairwise (fun a b => a.x < b.x))
    (h : Pillar.update cfg p score d1 d2 d3 = some (p', score')) :
    (∀ q ∈ p'.pipe_list,
      ((-(Pillar.WIDTH cfg) : Int) : ℚ) ≤ q.x ∨
        (q.x = (cfg.GAME_WIDTH : ℚ) ∧ p'.pipe_list.getLast? = some q)) ∧
    (0 ≤ cfg.GAME_WIDTH → ∀ q ∈ p'.pipe_list, ((-(Pillar.WIDTH cfg) : Int) : ℚ) ≤ q.x) := by
  obtain ⟨_, _, _, _, hl⟩ := Pillar.update_some cfg p p' score score' d1 d2 d3 h
  have hkept := Pillar.retire_ge cfg (Pillar.move p.v p.pipe_list) score p.v
    (Pillar.move_pairwise p.v p.pipe_list hpw)
  have hfirst : ∀ q ∈ p'.pipe_list,
      ((-(Pillar.WIDTH cfg) : Int) : ℚ) ≤ q.x ∨
        (q.x = (cfg.GAME_WIDTH : ℚ) ∧ p'.pipe_list.getLast? = some q) := by
    intro q hq
    rcases hl with hl | ⟨pipe, hpx, hl⟩
    · rw [hl] at hq; exact Or.inl (hkept q hq)
    · rw [hl] at hq
      rcases List.mem_append.mp hq with hq | hq
      · exact Or.inl (hkept q hq)
      · right
        rw [List.mem_singleton.mp hq]
        exact ⟨hpx, by rw [hl]; simp⟩
  refine ⟨hfirst, ?_⟩
  intro hgw q hq
  rcases hfirst q hq with h1 | ⟨h1, _⟩
  · exact h1
  · rw [h1]
    have hw : 0 ≤ Pillar.WIDTH cfg := by
      unfold Pillar.WIDTH
      exact Int.tdiv_nonneg hgw (by norm_num)
    have : -(Pillar.WIDTH cfg) ≤ cfg.GAME_WIDTH := by omega
    exact_mod_cast this

/-- Witness for C18: `GAME_WIDTH = 10`, `GAME_HEIGHT = 8`, pipes at `x = -1`,
`x = 0` and `x = 7` with `v = 3/2`: the first two fall below `-WIDTH = -1` and
are popped (score 18 to 20), and the list returned is `[x = 5.5, x = 10]`. -/
theorem Pillar.update_no_offscreen_witness :
    ((-(Pillar.WIDTH ⟨10, 8, 60⟩) : Int) : ℚ) ≤ (11 / 2 : ℚ) :=
  (Pillar.update_no_offscreen ⟨10, 8, 60⟩
    { pipe_list := [{ x := -1, y := 4 }, { x := 0, y := 4 }, { x := 7, y := 3 }],
      v := 3 / 2, space := 2 }
    { pipe_list := [{ x := 11 / 2, y := 3 }, { x := 10, y := 4 }], v := 2, space := 2 }
    18 20 4 4 4 (by decide!) (by decide!)).2 (by decide)
    { x := 11 / 2, y := 3 } (List.mem_cons_self _ _)

theorem Pillar.retire_last (cfg : Config) (l : List Pipe) (b : Pipe) :
    ∀ (score : Int) (v : ℚ), l.getLast? = some b → ¬ b.x < ((-(Pillar.WIDTH cfg) : Int) : ℚ) →
      (Pillar.retire cfg l score v).1.getLast? = some b := by
  induction l with
  | nil => intro score v h _; cases h
  | cons p ps ih =>
    intro score v h hb
    by_cases hp : p.x < ((-(Pillar.WIDTH cfg) : Int) : ℚ)
    · cases ps with
      | nil =>
        simp only [List.getLast?_singleton, Option.some.injEq] at h
        rw [h] at hp
        exact absurd hp hb
      | cons q qs =>
        rw [List.getLast?_cons_cons] at h
        simp only [Pillar.retire, if_pos hp]
        split
        · exact ih _ _ h hb
        · exact ih _ _ h hb
    · rw [Pillar.retire_keep cfg p ps score v hp]
      exact h

theorem tdiv_pos_nonneg (a b : Int) (hb : 0 < b) (h : 0 < Int.tdiv a b) : 0 ≤ a := by
  by_contra hc
  have h1 : 0 ≤ Int.tdiv (-a) b := Int.tdiv_nonneg (by omega) (by omega)
  rw [Int.neg_tdiv] at h1
  omega

/-- C20. Let the list be non-empty with back pipe at
`x ≥ GAME_WIDTH - WIDTH - space`, where `0 ≤ space ≤ 2 * Bird::SIZE`, and let
`v ≤ GAME_WIDTH - 2 * Bird::SIZE`.  Then (for a draw in range and
`MAX_HEIGHT > 0`) the loop of `Pillar::update` does not pop the back pipe, the
call is defined, the list it returns is non-empty, and the new state again
has its back pipe at `x ≥ GAME_WIDTH - WIDTH - space` with
`0 ≤ space ≤ 2 * Bird::SIZE`, for the new value of `space`. -/
theorem Pillar.update_safe (cfg : Config) (p : Pillar) (score d1 d2 d3 : Int) (back : Pipe)
    (hback : p.pipe_list.getLast? = some back)
    (hbx : ((cfg.GAME_WIDTH - Pillar.WIDTH cfg : Int) : ℚ) - p.space ≤ back.x)
    (hs0 : 0 ≤ p.space) (hs1 : p.space ≤ 2 * (Bird.SIZE cfg : ℚ))
    (hv : p.v ≤ ((cfg.GAME_WIDTH - 2 * Bird.SIZE cfg : Int) : ℚ))
    (hmax : 0 < Pillar.MAX_HEIGHT cfg)
    (hlo : Pillar.MIN_HEIGHT cfg ≤ d3) (hhi : d3 ≤ Pillar.MAX_HEIGHT cfg) :
    (Pillar.retire cfg (Pillar.move p.v p.pipe_list) score p.v).1.getLast?
      = some { x := back.x - p.v, y := back.y } ∧
    ∃ (p' : Pillar) (score' : Int) (back' : Pipe),
      Pillar.update cfg p score d1 d2 d3 = some (p', score') ∧
      p'.pipe_list ≠ [] ∧
      p'.pipe_list.getLast? = some back' ∧
      ((cfg.GAME_WIDTH - Pillar.WIDTH cfg : Int) : ℚ) - p'.space ≤ back'.x ∧
      0 ≤ p'.space ∧ p'.space ≤ 2 * (Bird.SIZE cfg : ℚ) := by
  have hne : p.pipe_list ≠ [] := by
    intro h0; rw [h0] at hback; cases hback
  have hWS : Pillar.WIDTH cfg = Bird.SIZE cfg := rfl
  have hsize : (0 : ℚ) ≤ (Bird.SIZE cfg : ℚ) := by linarith
  have hmoved : (Pillar.move p.v p.pipe_list).getLast?
      = some { x := back.x - p.v, y := back.y } := by
    unfold Pillar.move
    rw [List.getLast?_map, hback]
    rfl
  have hkeep : ¬ (back.x - p.v) < ((-(Pillar.WIDTH cfg) : Int) : ℚ) := by
    push_cast at hbx hv ⊢
    rw [hWS] at hbx ⊢
    linarith
  have hlast := Pillar.retire_last cfg (Pillar.move p.v p.pipe_list)
    { x := back.x - p.v, y := back.y } score p.v hmoved hkeep
  refine ⟨hlast, ?_⟩
  have hupd := Pillar.update_of_last cfg p score d1 d2 d3 _ hne hlast
  by_cases hsp : (back.x - p.v) < ((cfg.GAME_WIDTH - Pillar.WIDTH cfg : Int) : ℚ) - p.space
  · rw [if_pos hsp] at hupd
    obtain ⟨pipe, hx, hl⟩ := Pillar.new_pillar_list cfg
      { p with pipe_list := (Pillar.retire cfg (Pillar.move p.v p.pipe_list) score p.v).1,
               v := (Pillar.retire cfg (Pillar.move p.v p.pipe_list) score p.v).2.2 } d1 d2
    have hgh : 0 ≤ cfg.GAME_HEIGHT := tdiv_pos_nonneg _ 2 (by norm_num) hmax
    have hmin : 0 ≤ Pillar.MIN_HEIGHT cfg := Int.tdiv_nonneg hgh (by norm_num)
    have hmaxq : (0 : ℚ) < (Pillar.MAX_HEIGHT cfg : ℚ) := by exact_mod_cast hmax
    have hd0 : (0 : ℚ) ≤ (d3 : ℚ) := by exact_mod_cast (le_trans hmin hlo)
    have hd1 : (d3 : ℚ) ≤ (Pillar.MAX_HEIGHT cfg : ℚ) := by exact_mod_cast hhi
    have hr0 : (0 : ℚ) ≤ (d3 : ℚ) / (Pillar.MAX_HEIGHT cfg : ℚ) := div_nonneg hd0 (le_of_lt hmaxq)
    have hr1 : (d3 : ℚ) / (Pillar.MAX_HEIGHT cfg : ℚ) ≤ 1 := (div_le_one hmaxq).mpr hd1
    have hsp0 : (0 : ℚ) ≤ (d3 : ℚ) / (Pillar.MAX_HEIGHT cfg : ℚ) * 2 * (Bird.SIZE cfg : ℚ) :=
      mul_nonneg (mul_nonneg hr0 (by norm_num)) hsize
    have hsp1 : (d3 : ℚ) / (Pillar.MAX_HEIGHT cfg : ℚ) * 2 * (Bird.SIZE cfg : ℚ)
        ≤ 2 * (Bird.SIZE cfg : ℚ) := by
      have := mul_le_mul_of_nonneg_right hr1 (by linarith : (0 : ℚ) ≤ 2 * (Bird.SIZE cfg : ℚ))
      linarith
    refine ⟨_, _, pipe, hupd, ?_, ?_, ?_, hsp0, hsp1⟩
    · simp only; rw [hl]; simp
    · simp only; rw [hl]; exact List.getLast?_concat _
    · simp only
      rw [hx]
      push_cast
      rw [hWS]
      linarith
  · rw [if_neg hsp] at hupd
    refine ⟨_, _, _, hupd, ?_, hlast, not_lt.mp hsp, hs0, hs1⟩
    simp only
    intro h0
    rw [h0] at hlast
    cases hlast

/-- Witness for C20: `GAME_WIDTH = 400`, `GAME_HEIGHT = 600`, pipes at `x = 100`
and `x = 300`, `space = 60`, `v = 2`: the back pipe is at
`300 ≥ 400 - 40 - 60`, and `v ≤ 400 - 80`. -/
theorem Pillar.update_safe_witness :
    ∃ (p' : Pillar) (score' : Int) (back' : Pipe),
      Pillar.update ⟨400, 600, 60⟩
        { pipe_list := [{ x := 100, y := 300 }, { x := 300, y := -20 }], v := 2, space := 60 }
        3 200 250 290 = some (p', score') ∧
      p'.pipe_list ≠ [] ∧
      p'.pipe_list.getLast? = some back' ∧
      ((400 - Pillar.WIDTH ⟨400, 600, 60⟩ : Int) : ℚ) - p'.space ≤ back'.x ∧
      0 ≤ p'.space ∧ p'.space ≤ 2 * (Bird.SIZE ⟨400, 600, 60⟩ : ℚ) :=
  (Pillar.update_safe ⟨400, 600, 60⟩
    { pipe_list := [{ x := 100, y := 300 }, { x := 300, y := -20 }], v := 2, space := 60 }
    3 200 250 290 { x := 300, y := -20 } rfl (by decide!) (by decide!) (by decide!) (by decide!)
    (by decide) (by decide) (by decide)).2

/-! ## The speed as a function of the score -/

theorem Pillar.reset_ramp (cfg : Config) (p : Pillar) (d1 d2 : Int) :
    Pillar.Ramp cfg (Pillar.reset cfg p d1 d2, 0) := by
  obtain ⟨_, hx, _⟩ := Pillar.reset_ordered cfg p d1 d2
  refine ⟨hx, le_refl _, ?_⟩
  simp [Pillar.reset, Pillar.new_pillar_v]

theorem tick_ramp (cfg : Config) (g g' : Game) (inp : Input)
    (hinv : Pillar.Ramp cfg (g.pillar, g.score)) (h : tick cfg g inp = some g') :
    Pillar.Ramp cfg (g'.pillar, g'.score) := by
  cases hst : g.game_status with
  | PENDING =>
    unfold tick at h
    rw [hst] at h
    simp only at h
    split at h <;> (cases h; exact hinv)
  | PAUSE =>
    unfold tick at h
    rw [hst] at h
    simp only at h
    split at h <;> (cases h; exact hinv)
  | ENDING =>
    unfold tick at h
    rw [hst] at h
    simp only at h
    split at h
    · cases h; exact Pillar.reset_ramp cfg g.pillar inp.d1 inp.d2
    · cases h; exact hinv
  | RUNNING =>
    cases hupd : Pillar.update cfg g.pillar g.score inp.d1 inp.d2 inp.d3 with
    | none =>
      rw [tick_running_none cfg g inp hst hupd] at h
      cases h
    | some r =>
      obtain ⟨p', score'⟩ := r
      rw [tick_running cfg g inp p' score' hst hupd] at h
      cases h
      exact (Pillar.update_ramp cfg (g.pillar, g.score) (p', score') inp.d1 inp.d2 inp.d3
        hinv hupd).1

theorem Game.run_ramp (cfg : Config) (inps : List Input) :
    ∀ g g' : Game, Pillar.Ramp cfg (g.pillar, g.score) → Game.run cfg g inps = some g' →
      Pillar.Ramp cfg (g'.pillar, g'.score) := by
  induction inps with
  | nil =>
    intro g g' hinv h
    simp only [Game.run, Option.some.injEq] at h
    rw [← h]; exact hinv
  | cons inp inps ih =>
    intro g g' hinv h
    simp only [Game.run] at h
    cases ht : tick cfg g inp with
    | none => rw [ht] at h; cases h
    | some g1 =>
      rw [ht] at h
      exact ih g1 g' (tick_ramp cfg g g1 inp hinv ht) h

/-- C17. In every game state reached from the initial one (`PENDING`, score 0,
fresh bird and pillar) by any sequence of ticks with any inputs, the score is
non-negative and `v = INIT_V + 0.5 * ⌊score / 10⌋`. -/
theorem Game.run_speed_of_score (cfg : Config) (e1 e2 : Int) (inps : List Input) (g : Game)
    (h : Game.run cfg (Game.init cfg e1 e2) inps = some g) :
    0 ≤ g.score ∧
    g.pillar.v = Pillar.INIT_V + (1 / 2) * ((Int.floor ((g.score : ℚ) / 10) : Int) : ℚ) := by
  obtain ⟨_, h0, hv⟩ := Game.run_ramp cfg inps (Game.init cfg e1 e2) g
    (Pillar.init_ramp cfg e1 e2) h
  refine ⟨h0, ?_⟩
  have hf : Int.floor ((g.score : ℚ) / 10) = g.score / 10 := by
    have := Rat.floor_intCast_div_natCast g.score 10
    simpa using this
  rw [hf]
  exact hv

/-- Witness for C17: `GAME_WIDTH = 10`, `GAME_HEIGHT = 8`; start, a jump that
takes the bird above the top (`ENDING`), two idle ticks and a restart: the
state reached has score 0 and `v = 1`. -/
theorem Game.run_speed_of_score_witness :
    (0 : Int) ≤ 0 ∧
    (1 : ℚ) = Pillar.INIT_V + (1 / 2) * ((Int.floor (((0 : Int) : ℚ) / 10) : Int) : ℚ) :=
  Game.run_speed_of_score ⟨10, 8, 60⟩ 4 4
    [⟨false, true, 4, 4, 4⟩, ⟨false, true, 4, 4, 4⟩, ⟨false, false, 4, 4, 4⟩,
      ⟨true, false, 4, 4, 4⟩, ⟨false, true, 4, 4, 4⟩]
    { game_status := GameStatus.RUNNING, score := 0,
      bird := { index := 0, y := 7 / 2, v := 0, count := 1 },
      pillar := { pipe_list := [{ x := 10, y := 4 }], v := 1, space := 3 / 2 } }
    (by decide!)

/-! ## The first pipe of a fresh pillar -/

theorem tdiv_ten_bounds (a : Int) (h : 0 ≤ a) : 0 ≤ Int.tdiv a 10 ∧ 10 * Int.tdiv a 10 ≤ a := by
  rw [Int.tdiv_eq_ediv h (by norm_num)]
  omega

theorem Pillar.init_first_gate (cfg : Config) (hgw : 0 ≤ cfg.GAME_WIDTH) (e1 e2 : Int) :
    Pillar.FirstGate cfg 0 (Pillar.init cfg e1 e2, 0) := by
  obtain ⟨pipe, hx, hl⟩ := Pillar.new_pillar_list cfg
    { pipe_list := [], v := Pillar.INIT_V, space := (Bird.SIZE cfg : ℚ) * (3 / 2) } e1 e2
  obtain ⟨hs0, _⟩ := tdiv_ten_bounds cfg.GAME_WIDTH hgw
  have hsize : (0 : ℚ) ≤ (Bird.SIZE cfg : ℚ) := by exact_mod_cast hs0
  refine ⟨rfl, ?_, pipe, [], ?_, ?_, ?_, ?_⟩
  · simp [Pillar.init, Pillar.new_pillar_v]
  · simpa [Pillar.init] using hl
  · rw [hx]; simp
  · intro q hq; cases hq
  · intro _
    refine ⟨?_, ?_⟩
    · simp [Pillar.init, Pillar.new_pillar_space]
    · rw [hx]
      have hWS : Pillar.WIDTH cfg = Bird.SIZE cfg := rfl
      push_cast
      rw [hWS]
      linarith

theorem Pillar.update_first_gate (cfg : Config) (j : Nat) (s : Pillar × Int) (d1 d2 d3 : Int)
    (hJ : Pillar.FirstGate cfg j s)
    (hj : (j : Int) + 1 ≤ cfg.GAME_WIDTH + Pillar.WIDTH cfg) :
    ∃ s', Pillar.update cfg s.1 s.2 d1 d2 d3 = some s' ∧ Pillar.FirstGate cfg (j + 1) s' := by
  obtain ⟨hs, hv, first, rest, hl, hfx, hrest, hsp⟩ := hJ
  have hjq : (j : ℚ) + 1 ≤ (cfg.GAME_WIDTH : ℚ) + (Pillar.WIDTH cfg : ℚ) := by exact_mod_cast hj
  have hv1 : s.1.v = 1 := hv
  have hne : s.1.pipe_list ≠ [] := by rw [hl]; exact List.cons_ne_nil _ _
  have hm : Pillar.move s.1.v s.1.pipe_list
      = { x := first.x - s.1.v, y := first.y } :: Pillar.move s.1.v rest := by
    rw [hl]; rfl
  have hkeep : ¬ (first.x - s.1.v) < ((-(Pillar.WIDTH cfg) : Int) : ℚ) := by
    rw [hfx, hv1]; push_cast; linarith
  have hr := Pillar.retire_keep cfg { x := first.x - s.1.v, y := first.y }
    (Pillar.move s.1.v rest) s.2 s.1.v hkeep
  rw [← hm] at hr
  have hmne : Pillar.move s.1.v s.1.pipe_list ≠ [] := by rw [hm]; exact List.cons_ne_nil _ _
  have hlast : (Pillar.retire cfg (Pillar.move s.1.v s.1.pipe_list) s.2 s.1.v).1.getLast?
      = some ((Pillar.move s.1.v s.1.pipe_list).getLast hmne) := by
    rw [hr]; exact List.getLast?_eq_getLast _ hmne
  have hupd := Pillar.update_of_last cfg s.1 s.2 d1 d2 d3 _ hne hlast
  have hfx' : first.x - s.1.v = (cfg.GAME_WIDTH : ℚ) - ((j + 1 : Nat) : ℚ) := by
    rw [hfx, hv1]; push_cast; ring
  have hrest' : ∀ q ∈ Pillar.move s.1.v rest, first.x - s.1.v + 1 ≤ q.x := by
    intro q hq
    obtain ⟨q0, hq0, hqx⟩ := Pillar.move_mem _ _ _ hq
    have := hrest q0 hq0
    linarith
  by_cases hspawn : ((Pillar.move s.1.v s.1.pipe_list).getLast hmne).x
      < ((cfg.GAME_WIDTH - Pillar.WIDTH cfg : Int) : ℚ) - s.1.space
  · rw [if_pos hspawn] at hupd
    obtain ⟨pipe, hx, hlp⟩ := Pillar.new_pillar_list cfg
      { s.1 with
        pipe_list := (Pillar.retire cfg (Pillar.move s.1.v s.1.pipe_list) s.2 s.1.v).1,
        v := (Pillar.retire cfg (Pillar.move s.1.v s.1.pipe_list) s.2 s.1.v).2.2 } d1 d2
    refine ⟨_, hupd, ?_, ?_, { x := first.x - s.1.v, y := first.y },
      Pillar.move s.1.v rest ++ [pipe], ?_, hfx', ?_, ?_⟩
    · simp only; rw [hr]; exact hs
    · simp only [Pillar.new_pillar_v]; rw [hr]; exact hv
    · simp only; rw [hlp]; simp only; rw [hr, hm]; rfl
    · intro q hq
      rcases List.mem_append.mp hq with hq | hq
      · exact hrest' q hq
      · rw [List.mem_singleton.mp hq, hx, hfx']
        push_cast
        have : (0 : ℚ) ≤ (j : ℚ) := Nat.cast_nonneg _
        linarith
    · intro h0
      exact absurd h0 (by simp)
  · rw [if_neg hspawn] at hupd
    refine ⟨_, hupd, ?_, ?_, { x := first.x - s.1.v, y := first.y },
      Pillar.move s.1.v rest, ?_, hfx', hrest', ?_⟩
    · simp only; rw [hr]; exact hs
    · simp only; rw [hr]; exact hv
    · simp only; rw [hr, hm]
    · intro h0
      have hrest0 : rest = [] := by
        cases rest with
        | nil => rfl
        | cons a as => simp [Pillar.move] at h0
      obtain ⟨hspace, _⟩ := hsp hrest0
      refine ⟨hspace, ?_⟩
      have hb : ((Pillar.move s.1.v s.1.pipe_list).getLast hmne)
          = { x := first.x - s.1.v, y := first.y } := by
        have h1 : (Pillar.move s.1.v s.1.pipe_list).getLast? =
            some { x := first.x - s.1.v, y := first.y } := by
          rw [hm, h0]; rfl
        rw [List.getLast?_eq_getLast _ hmne] at h1
        exact Option.some.inj h1
      rw [hb, hspace] at hspawn
      exact hspawn

theorem Pillar.update_first_gate_retired (cfg : Config) (hgw : 1 ≤ cfg.GAME_WIDTH) (j : Nat)
    (s : Pillar × Int) (d1 d2 d3 : Int) (hJ : Pillar.FirstGate cfg j s)
    (hj : (j : Int) = cfg.GAME_WIDTH + Pillar.WIDTH cfg) :
    ∃ s', Pillar.update cfg s.1 s.2 d1 d2 d3 = some s' ∧ s'.2 = 1 ∧ s'.1.pipe_list ≠ [] ∧
      ∀ q ∈ s'.1.pipe_list, ((-(Pillar.WIDTH cfg) : Int) : ℚ) ≤ q.x := by
  obtain ⟨hs, hv, first, rest, hl, hfx, hrest, hsp⟩ := hJ
  have hjq : (j : ℚ) = (cfg.GAME_WIDTH : ℚ) + (Pillar.WIDTH cfg : ℚ) := by exact_mod_cast hj
  have hv1 : s.1.v = 1 := hv
  have hWS : Pillar.WIDTH cfg = Bird.SIZE cfg := rfl
  obtain ⟨hw0, hw10⟩ := tdiv_ten_bounds cfg.GAME_WIDTH (by omega)
  have hw0q : (0 : ℚ) ≤ (Pillar.WIDTH cfg : ℚ) := by exact_mod_cast hw0
  have hw10q : 10 * (Pillar.WIDTH cfg : ℚ) ≤ (cfg.GAME_WIDTH : ℚ) := by exact_mod_cast hw10
  have hgwq : (1 : ℚ) ≤ (cfg.GAME_WIDTH : ℚ) := by exact_mod_cast hgw
  have hfx0 : first.x = -(Pillar.WIDTH cfg : ℚ) := by rw [hfx, hjq]; ring
  have hne : s.1.pipe_list ≠ [] := by rw [hl]; exact List.cons_ne_nil _ _
  cases rest with
  | nil =>
    exfalso
    obtain ⟨_, hno⟩ := hsp rfl
    apply hno
    rw [hfx0]
    push_cast
    rw [← hWS]
    linarith
  | cons q0 rs =>
    have hm : Pillar.move s.1.v s.1.pipe_list
        = { x := first.x - s.1.v, y := first.y } ::
            { x := q0.x - s.1.v, y := q0.y } :: Pillar.move s.1.v rs := by
      rw [hl]; rfl
    have hpop : (first.x - s.1.v) < ((-(Pillar.WIDTH cfg) : Int) : ℚ) := by
      rw [hfx0, hv1]; push_cast; linarith
    have hq0 := hrest q0 (List.mem_cons_self _ _)
    have hkeep : ¬ (q0.x - s.1.v) < ((-(Pillar.WIDTH cfg) : Int) : ℚ) := by
      rw [hv1]; push_cast; rw [hfx0] at hq0; linarith
    have hr : Pillar.retire cfg (Pillar.move s.1.v s.1.pipe_list) s.2 s.1.v
        = ({ x := q0.x - s.1.v, y := q0.y } :: Pillar.move s.1.v rs, 1, s.1.v) := by
      rw [hm, hs]
      simp only [Pillar.retire, if_pos hpop]
      rw [if_neg (by decide), if_neg hkeep]
      rfl
    have hkept : ∀ q ∈ ({ x := q0.x - s.1.v, y := q0.y } :: Pillar.move s.1.v rs : List Pipe),
        ((-(Pillar.WIDTH cfg) : Int) : ℚ) ≤ q.x := by
      intro q hq
      have hq' : q ∈ Pillar.move s.1.v (q0 :: rs) := hq
      obtain ⟨q1, hq1, hqx⟩ := Pillar.move_mem _ _ _ hq'
      have := hrest q1 hq1
      rw [hqx, hv1]; push_cast; rw [hfx0] at this; linarith
    have hrne : (Pillar.retire cfg (Pillar.move s.1.v s.1.pipe_list) s.2 s.1.v).1 ≠ [] := by
      rw [hr]; exact List.cons_ne_nil _ _
    have hupd := Pillar.update_of_last cfg s.1 s.2 d1 d2 d3 _ hne
      (List.getLast?_eq_getLast _ hrne)
    split at hupd
    · obtain ⟨pipe, hx, hlp⟩ := Pillar.new_pillar_list cfg
        { s.1 with
          pipe_list := (Pillar.retire cfg (Pillar.move s.1.v s.1.pipe_list) s.2 s.1.v).1,
          v := (Pillar.retire cfg (Pillar.move s.1.v s.1.pipe_list) s.2 s.1.v).2.2 } d1 d2
      refine ⟨_, hupd, ?_, ?_, ?_⟩
      · simp only; rw [hr]
      · simp only; rw [hlp]; simp
      · intro q hq
        simp only at hq
        rw [hlp] at hq
        simp only at hq
        rcases List.mem_append.mp hq with hq | hq
        · rw [hr] at hq; exact hkept q hq
        · rw [List.mem_singleton.mp hq, hx]; push_cast; linarith
    · refine ⟨_, hupd, ?_, ?_, ?_⟩
      · simp only; rw [hr]
      · simp only; exact hrne
      · intro q hq
        simp only at hq
        rw [hr] at hq
        exact hkept q hq

theorem Pillar.run_first_gate (cfg : Config) (calls : List PillarCall) :
    ∀ (j : Nat) (s : Pillar × Int), Pillar.FirstGate cfg j s →
      (∀ c ∈ calls, PillarCall.isUpdate c) →
      ((j + calls.length : Nat) : Int) ≤ cfg.GAME_WIDTH + Pillar.WIDTH cfg →
      ∃ s', Pillar.run cfg s calls = some s' ∧ Pillar.FirstGate cfg (j + calls.length) s' := by
  induction calls with
  | nil =>
    intro j s hJ _ _
    exact ⟨s, rfl, hJ⟩
  | cons c cs ih =>
    intro j s hJ hall hlen
    have hc := hall c (List.mem_cons_self _ _)
    have hcs : ∀ c' ∈ cs, PillarCall.isUpdate c' := fun c' h => hall c' (List.mem_cons_of_mem _ h)
    simp only [List.length_cons] at hlen
    cases c with
    | reset d1 d2 => exact absurd hc (by simp [PillarCall.isUpdate])
    | update d1 d2 d3 =>
      obtain ⟨s1, hu, hJ1⟩ := Pillar.update_first_gate cfg j s d1 d2 d3 hJ (by push_cast at hlen; omega)
      obtain ⟨s', hrun, hJ'⟩ := ih (j + 1) s1 hJ1 hcs (by push_cast at hlen ⊢; omega)
      refine ⟨s', ?_, ?_⟩
      · simp only [Pillar.run, hu]; exact hrun
      · have : j + (cs.length + 1) = j + 1 + cs.length := by omega
        simp only [List.length_cons]
        rw [this]; exact hJ'

/-- C16. A fresh pillar has exactly one pipe, at `x = GAME_WIDTH`, with
`v = INIT_V`.  With `GAME_WIDTH ≥ 1` and score 0, for any draws: after any
`n ≤ GAME_WIDTH + WIDTH` calls of `update()` the score is still 0 and that
pipe is at the front at `x = GAME_WIDTH - n`; after exactly
`GAME_WIDTH + WIDTH + 1` calls it has been retired, the score is exactly 1,
the list is non-empty, and every pipe in it has `x ≥ -WIDTH`. -/
theorem Pillar.first_gate_retired (cfg : Config) (hgw : 1 ≤ cfg.GAME_WIDTH) (e1 e2 : Int)
    (calls : List PillarCall) (hall : ∀ c ∈ calls, PillarCall.isUpdate c) :
    (∃ pipe : Pipe, (Pillar.init cfg e1 e2).pipe_list = [pipe] ∧
      pipe.x = (cfg.GAME_WIDTH : ℚ)) ∧
    (Pillar.init cfg e1 e2).v = Pillar.INIT_V ∧
    ((calls.length : Int) ≤ cfg.GAME_WIDTH + Pillar.WIDTH cfg →
      ∃ (s : Pillar × Int) (first : Pipe) (rest : List Pipe),
        Pillar.run cfg (Pillar.init cfg e1 e2, 0) calls = some s ∧ s.2 = 0 ∧
        s.1.pipe_list = first :: rest ∧
        first.x = (cfg.GAME_WIDTH : ℚ) - (calls.length : ℚ)) ∧
    ((calls.length : Int) = cfg.GAME_WIDTH + Pillar.WIDTH cfg + 1 →
      ∃ s : Pillar × Int,
        Pillar.run cfg (Pillar.init cfg e1 e2, 0) calls = some s ∧ s.2 = 1 ∧
        s.1.pipe_list ≠ [] ∧
        ∀ q ∈ s.1.pipe_list, ((-(Pillar.WIDTH cfg) : Int) : ℚ) ≤ q.x) := by
  have hJ0 := Pillar.init_first_gate cfg (by omega) e1 e2
  refine ⟨?_, ?_, ?_, ?_⟩
  · obtain ⟨pipe, hx, hl⟩ := Pillar.new_pillar_list cfg
      { pipe_list := [], v := Pillar.INIT_V, space := (Bird.SIZE cfg : ℚ) * (3 / 2) } e1 e2
    exact ⟨pipe, by simpa [Pillar.init] using hl, hx⟩
  · simp [Pillar.init, Pillar.new_pillar_v]
  · intro hlen
    obtain ⟨s, hrun, hs, _, first, rest, hl, hfx, _, _⟩ :=
      Pillar.run_first_gate cfg calls 0 _ hJ0 hall (by push_cast; omega)
    refine ⟨s, first, rest, hrun, hs, hl, ?_⟩
    rw [hfx]; push_cast; ring
  · intro hlen
    rcases List.eq_nil_or_concat calls with h0 | ⟨L, c, hL⟩
    · rw [h0] at hlen
      obtain ⟨hw0, _⟩ := tdiv_ten_bounds cfg.GAME_WIDTH (by omega)
      have : 0 ≤ Pillar.WIDTH cfg := hw0
      simp only [List.length_nil, Nat.cast_zero] at hlen
      omega
    · rw [List.concat_eq_append] at hL
      have hLlen : ((0 + L.length : Nat) : Int) = cfg.GAME_WIDTH + Pillar.WIDTH cfg := by
        rw [hL] at hlen
        simp only [List.length_append, List.length_singleton] at hlen
        push_cast at hlen ⊢
        omega
      have hallL : ∀ c' ∈ L, PillarCall.isUpdate c' := by
        intro c' hc'
        exact hall c' (by rw [hL]; exact List.mem_append_left _ hc')
      have hc : PillarCall.isUpdate c := hall c (by rw [hL]; simp)
      obtain ⟨s1, hrun1, hJ1⟩ := Pillar.run_first_gate cfg L 0 _ hJ0 hallL (le_of_eq hLlen)
      cases c with
      | reset d1 d2 => exact absurd hc (by simp [PillarCall.isUpdate])
      | update d1 d2 d3 =>
        obtain ⟨s', hu, h1, h2, h3⟩ := Pillar.update_first_gate_retired cfg hgw
          (0 + L.length) s1 d1 d2 d3 hJ1 hLlen
        refine ⟨s', ?_, h1, h2, h3⟩
        rw [hL, Pillar.run_append, hrun1]
        simp only [Option.bind, Pillar.run, hu]

/-- Witness for C16: `GAME_WIDTH = 10`, `GAME_HEIGHT = 8` (`WIDTH = 1`): after
`10 + 1 + 1 = 12` calls of `update()` the score is 1 and the list is
non-empty. -/
theorem Pillar.first_gate_retired_witness :
    ∃ s : Pillar × Int,
      Pillar.run ⟨10, 8, 60⟩ (Pillar.init ⟨10, 8, 60⟩ 4 4, 0)
        (List.replicate 12 (PillarCall.update 4 4 4)) = some s ∧ s.2 = 1 ∧
      s.1.pipe_list ≠ [] := by
  obtain ⟨s, h1, h2, h3, _⟩ := (Pillar.first_gate_retired ⟨10, 8, 60⟩ (by decide) 4 4
    (List.replicate 12 (PillarCall.update 4 4 4))
    (by
      intro c hc
      rw [List.eq_of_mem_replicate hc]
      exact True.intro)).2.2.2 (by decide)
  exact ⟨s, h1, h2, h3⟩

end Flappy
